/-
Verification of the headless battle runner's streaming protocol adapter
(`tools/headless-battle-runner.ts`).

The development shallowly embeds the runner's pure logic:

* the incremental line splitter used by `pipeInputWithTeams` (the
  `buffer.indexOf('\n')` loop, modelled character-atomically over `List Char`);
* the team-injection coordinator (`handleLine`, `injectTeams`, the per-chunk
  injection point, and the end-of-stream flush);
* the `JsonLogFormatter` protocol annotator (`format`, `extractTimestamp`,
  `extractTurn`, `extractPlayer`) together with the per-chunk splitting done
  by `pipeJsonOutput` on the read side;
* the configuration-validation prefix of `main` (`parseLogFormat`,
  `parseSeed`, team loading, and the `--interactive-stdin` conflict check).

JavaScript strings are embedded as `List Char`; the byte stream written to
the engine is recovered by rendering the ordered list of `stream.write`
calls.  Wall-clock fallback timestamps and file/OS interaction are outside
the deterministic model and are represented by `Option`/oracle parameters,
as noted at each definition.
-/
import Mathlib

namespace HeadlessRunner

/-- JavaScript strings are embedded character-atomically as `List Char`. -/
abbrev Chars := List Char

/-- Coerce a Lean string literal to the `List Char` embedding. -/
def str (s : String) : Chars := s.toList

/-- `line.startsWith('>start')` from `handleLine`. -/
def isMarker (l : Chars) : Bool := (str ">start").isPrefixOf l

/-- `line.startsWith('>player p1 ')` from `handleLine`. -/
def isP1Cmd (l : Chars) : Bool := (str ">player p1 ").isPrefixOf l

/-- `line.startsWith('>player p2 ')` from `handleLine`. -/
def isP2Cmd (l : Chars) : Bool := (str ">player p2 ").isPrefixOf l

/-!
## The line splitter

`pipeInputWithTeams` repeatedly takes the prefix of `buffer` before the
first `'\n'`, emits it as a complete line, and keeps the remainder as the
new buffer.  `splitLines s` returns the list of complete lines contained in
`s` together with the unterminated tail, which is exactly the result of
running that loop on `buffer = s`.
-/

/-- All complete (newline-terminated) lines of a string, in order, together
with the trailing unterminated remainder, as extracted by the
`buffer.indexOf('\n')` loop of `pipeInputWithTeams`. -/
def splitLines : Chars → List Chars × Chars
  | [] => ([], [])
  | c :: rest =>
    match splitLines rest with
    | (ls, b) =>
      if c = '\n' then ([] :: ls, b)
      else
        match ls with
        | l :: ls2 => ((c :: l) :: ls2, b)
        | [] => ([], c :: b)

/-!
## The team-injection coordinator (`pipeInputWithTeams`)

The coordinator's mutable state (`teamHandled`, `pendingInjection`, the
line buffer) is made explicit, and every `stream.write` call is recorded as
an `OutEvent` in issue order: `fwd` for the forwarding write in
`handleLine` (`stream.write(hadNewline ? line + '\n' : line)`) and `inject`
for the synthetic write in `injectTeams`
(`stream.write('>player ' + slot + ' ' + JSON.stringify({team}) + '\n')`).
-/

/-- The two player slots for which teams may be supplied (`PLAYER_SLOTS`). -/
inductive PlayerSlot where
  | p1
  | p2
deriving DecidableEq, Repr

/-- `Partial<Record<PlayerSlot, string>>`: the (optional) packed team
payload per slot, as passed to `pipeInputWithTeams`. -/
structure TeamsCfg where
  p1 : Option Chars
  p2 : Option Chars
deriving DecidableEq, Repr

/-- JavaScript truthiness of an optional string: `undefined` and the empty
string are falsy; this is the test `!teams[slot]` performs. -/
def truthy : Option Chars → Bool
  | none => false
  | some s => !s.isEmpty

/-- Select a slot's team from the configuration (`teams[slot]`). -/
def TeamsCfg.team (teams : TeamsCfg) : PlayerSlot → Option Chars
  | .p1 => teams.p1
  | .p2 => teams.p2

/-- The coordinator's flag state: `teamHandled.p1`, `teamHandled.p2` and
`pendingInjection` from `pipeInputWithTeams`. -/
structure InjFlags where
  handledP1 : Bool
  handledP2 : Bool
  pending : Bool
deriving DecidableEq, Repr

/-- One `stream.write` call issued by the coordinator, in issue order. -/
inductive OutEvent where
  | fwd (line : Chars) (hadNewline : Bool)
  | inject (slot : PlayerSlot) (team : Chars)
deriving DecidableEq, Repr

/-- The flag updates of `handleLine`: re-arm on a `>start` marker, then
defer to explicit `>player p1 ` / `>player p2 ` commands. -/
def lineFlags (teams : TeamsCfg) (f : InjFlags) (line : Chars) : InjFlags :=
  let f :=
    if isMarker line then
      { handledP1 := !truthy teams.p1, handledP2 := !truthy teams.p2, pending := true }
    else f
  let f := if isP1Cmd line then { f with handledP1 := true } else f
  if isP2Cmd line then { f with handledP2 := true } else f

/-- `handleLine`: update the flags, then forward the line downstream with
its original terminator state. -/
def handleLine (teams : TeamsCfg) (f : InjFlags) (line : Chars) (hadNewline : Bool) :
    InjFlags × List OutEvent :=
  (lineFlags teams f line, [OutEvent.fwd line hadNewline])

/-- Whether `injectTeams` writes for a slot: the slot's team is truthy and
its `teamHandled` flag is still clear (`if (!teams[slot] || teamHandled[slot]) continue`). -/
def InjFlags.handled (f : InjFlags) : PlayerSlot → Bool
  | .p1 => f.handledP1
  | .p2 => f.handledP2

/-- `injectTeams`: for each slot in `PLAYER_SLOTS` order, write one
synthetic `>player` command if the slot has a truthy team and is not yet
handled, and mark it handled. -/
def injectTeams (teams : TeamsCfg) (f : InjFlags) : InjFlags × List OutEvent :=
  let (f1, e1) :=
    if truthy teams.p1 && !f.handledP1 then
      ({ f with handledP1 := true }, [OutEvent.inject .p1 (teams.p1.getD [])])
    else (f, [])
  let (f2, e2) :=
    if truthy teams.p2 && !f1.handledP2 then
      ({ f1 with handledP2 := true }, [OutEvent.inject .p2 (teams.p2.getD [])])
    else (f1, [])
  (f2, e1 ++ e2)

/-- Process the complete lines extracted from one chunk, in order, each
with `hadNewline = true`, accumulating the forwarded events. -/
def handleLines (teams : TeamsCfg) (st : InjFlags × List OutEvent) (lines : List Chars) :
    InjFlags × List OutEvent :=
  lines.foldl
    (fun acc l =>
      match handleLine teams acc.1 l true with
      | (f, es) => (f, acc.2 ++ es))
    st

/-- The full state threaded through the `for await (const chunk of input)`
loop of `pipeInputWithTeams`: flags, the line buffer, and every write
issued so far. -/
structure PipeState where
  flags : InjFlags
  buffer : Chars
  output : List OutEvent
deriving DecidableEq, Repr

/-- One iteration of the chunk loop: append the chunk to the buffer, drain
all complete lines through `handleLine`, then, if an injection is pending,
run `injectTeams` and clear the pending flag. -/
def feedChunk (teams : TeamsCfg) (st : PipeState) (chunk : Chars) : PipeState :=
  match splitLines (st.buffer ++ chunk) with
  | (lines, buf) =>
    match handleLines teams (st.flags, st.output) lines with
    | (f, es) =>
      if f.pending then
        match injectTeams teams f with
        | (f2, es2) => ⟨{ f2 with pending := false }, buf, es ++ es2⟩
      else ⟨f, buf, es⟩

/-- The initial coordinator state: `teamHandled[slot] = !teams[slot]`,
no pending injection, empty buffer, nothing written. -/
def initState (teams : TeamsCfg) : PipeState :=
  ⟨⟨!truthy teams.p1, !truthy teams.p2, false⟩, [], []⟩

/-- Run the chunk loop of `pipeInputWithTeams` over a finite input stream. -/
def runChunks (teams : TeamsCfg) (chunks : List Chars) : PipeState :=
  chunks.foldl (feedChunk teams) (initState teams)

/-- The end-of-stream epilogue: `if (buffer.length) handleLine(buffer, false);
if (pendingInjection) injectTeams();`. -/
def flushPipe (teams : TeamsCfg) (st : PipeState) : List OutEvent :=
  match (if st.buffer.isEmpty then (st.flags, st.output)
         else
           match handleLine teams st.flags st.buffer false with
           | (f, es) => (f, st.output ++ es)) with
  | (f, es) => if f.pending then es ++ (injectTeams teams f).2 else es

/-- Every write `pipeInputWithTeams` issues to the engine stream for a
finite input stream delivered as the given chunks, in order. -/
def runPipe (teams : TeamsCfg) (chunks : List Chars) : List OutEvent :=
  flushPipe teams (runChunks teams chunks)

/-!
### Rendering writes back to bytes

`renderEvent` gives the exact string passed to `stream.write` for each
recorded event, so concatenating renders recovers the byte stream the
engine sees.  `JSON.stringify` string escaping is reproduced for the
`{team: ...}` object literal.
-/

/-- Lower-case hexadecimal digit. -/
def hexDigit (n : Nat) : Char :=
  if n < 10 then Char.ofNat ('0'.toNat + n) else Char.ofNat ('a'.toNat + (n - 10))

/-- `JSON.stringify` escaping for one character of a string value. -/
def jsonEscapeChar (c : Char) : Chars :=
  if c = '"' then ['\\', '"']
  else if c = '\\' then ['\\', '\\']
  else if c = '\n' then ['\\', 'n']
  else if c = '\r' then ['\\', 'r']
  else if c = '\t' then ['\\', 't']
  else if c = '\x08' then ['\\', 'b']
  else if c = '\x0c' then ['\\', 'f']
  else if c.toNat < 32 then str "\\u00" ++ [hexDigit (c.toNat / 16), hexDigit (c.toNat % 16)]
  else [c]

/-- `JSON.stringify({team: t})` for a string payload `t`. -/
def jsonTeam (t : Chars) : Chars :=
  str "\x7b\"team\":\"" ++ (t.map jsonEscapeChar).flatten ++ str "\"\x7d"

/-- The wire name of a slot (`'p1'` / `'p2'`). -/
def slotName : PlayerSlot → Chars
  | .p1 => str "p1"
  | .p2 => str "p2"

/-- The exact string passed to `stream.write` for one recorded event. -/
def renderEvent : OutEvent → Chars
  | .fwd line hadNewline => if hadNewline then line ++ ['\n'] else line
  | .inject slot team => str ">player " ++ slotName slot ++ [' '] ++ jsonTeam team ++ ['\n']

/-- The byte stream the engine receives: the concatenation of all writes. -/
def renderAll (es : List OutEvent) : Chars := (es.map renderEvent).flatten

/-- Recognize a synthetic write. -/
def isInject : OutEvent → Bool
  | .inject _ _ => true
  | .fwd _ _ => false

/-- Number of synthetic `>player` commands written for a given slot. -/
def injCount (s : PlayerSlot) (es : List OutEvent) : Nat :=
  es.countP fun e =>
    match e with
    | .inject s' _ => s' = s
    | .fwd _ _ => false

/-!
## The standalone line splitter (C4 view)

The same feed/flush loop as in `pipeInputWithTeams`, recorded as the
sequence of `(line, hadTerminator)` pairs passed to `handleLine`.
-/

/-- One feed call: drain all complete lines of `buffer ++ chunk` (each with
`hadTerminator = true`) and keep the unterminated tail. -/
def splitterFeed (st : List (Chars × Bool) × Chars) (chunk : Chars) :
    List (Chars × Bool) × Chars :=
  match splitLines (st.2 ++ chunk) with
  | (ls, buf) => (st.1 ++ ls.map (fun l => (l, true)), buf)

/-- Feed every chunk, then flush: a non-empty leftover buffer is emitted
once with `hadTerminator = false`. -/
def splitterRun (chunks : List Chars) : List (Chars × Bool) :=
  match chunks.foldl splitterFeed ([], []) with
  | (ps, buf) => ps ++ (if buf.isEmpty then [] else [(buf, false)])

/-- Reconstruction: each line followed by `'\n'` exactly when its
terminator flag is set. -/
def reassemble (ps : List (Chars × Bool)) : Chars :=
  (ps.map (fun p => if p.2 then p.1 ++ ['\n'] else p.1)).flatten

/-!
## The protocol annotator (`JsonLogFormatter`) and `pipeJsonOutput`

The annotator's carried context is `currentTurn` and `battleTimestamp`.
JavaScript numbers appear here only as finite integers of the protocol
grammar, so the `Number()`/`Number.isFinite` pipeline is modelled as an
integer parser (see `jsFiniteNumber`).  A record's `timestamp` field is the
stored battle timestamp converted to milliseconds (`new Date(ts * 1000)`);
`none` stands for the wall-clock fallback `new Date()` taken when no
battle timestamp was ever observed, which is outside the deterministic
model.
-/

/-- JavaScript whitespace as removed by `String.prototype.trim`. -/
def isJsWhitespace (c : Char) : Bool :=
  c = ' ' || c = '\t' || c = '\n' || c = '\r' || c = '\x0b' || c = '\x0c' || c = '\xa0'

/-- `message.trim()`. -/
def trimChars (s : Chars) : Chars :=
  ((s.dropWhile isJsWhitespace).reverse.dropWhile isJsWhitespace).reverse

/-- All decimal digits, accumulated left to right; `none` on a non-digit
or on an empty string. -/
def parseDigits : Chars → Option Nat
  | [] => none
  | ds =>
    ds.foldl
      (fun acc c =>
        match acc with
        | none => none
        | some n => if '0' ≤ c ∧ c ≤ '9' then some (n * 10 + (c.toNat - '0'.toNat)) else none)
      (some 0)

/-- Model of the JavaScript `Number(string)` conversion followed by the
`Number.isFinite` gate, restricted to the integer grammar the protocol
uses: surrounding whitespace is ignored, an empty or all-whitespace string
converts to `0`, an optional sign precedes a non-empty digit string, and
every other input (including `Infinity` and non-integer notations) is
treated as not a finite integer (`none`). -/
def jsFiniteNumber (s : Chars) : Option Int :=
  match trimChars s with
  | [] => some 0
  | '-' :: ds => (parseDigits ds).map fun n => -(n : Int)
  | '+' :: ds => (parseDigits ds).map fun n => (n : Int)
  | ds => (parseDigits ds).map fun n => (n : Int)

/-- `message.split(sep)` for a one-character separator. -/
def splitOnChar (sep : Char) : Chars → List Chars
  | [] => [[]]
  | c :: rest =>
    match splitOnChar sep rest with
    | ps =>
      if c = sep then [] :: ps
      else
        match ps with
        | p :: ps2 => (c :: p) :: ps2
        | [] => [[c]]

/-- `extractTimestamp`: a `|t:|`-prefixed line yields the finite number
after the prefix, else nothing. -/
def extractTimestamp (message : Chars) : Option Int :=
  if (str "|t:|").isPrefixOf message then jsFiniteNumber (message.drop 4) else none

/-- `extractTurn`: a pipe-initial line with at least three pipe-delimited
fields whose second field is exactly `turn` yields the finite third field. -/
def extractTurn (message : Chars) : Option Int :=
  if (str "|").isPrefixOf message then
    match splitOnChar '|' message with
    | parts =>
      if parts.length < 3 then none
      else if parts.get? 1 ≠ some (str "turn") then none
      else jsFiniteNumber (parts.getD 2 [])
  else none

/-- The digit class of the `/p[1-4]/` pattern. -/
def isSlotDigit (d : Char) : Bool := d = '1' || d = '2' || d = '3' || d = '4'

/-- `extractPlayer`: the first substring matching `/p[1-4]/`, or nothing. -/
def extractPlayer : Chars → Option Chars
  | c :: d :: rest =>
    if c = 'p' && isSlotDigit d then some [c, d]
    else extractPlayer (d :: rest)
  | _ => none

/-- Whether the `/p[1-4]/` pattern matches at character offset `i`. -/
def playerMatchAt (l : Chars) (i : Nat) : Bool :=
  match l.drop i with
  | c :: d :: _ => c = 'p' && isSlotDigit d
  | _ => false

/-- The annotator's carried context: `currentTurn` and `battleTimestamp`
(seconds since the epoch). -/
structure AnnState where
  currentTurn : Option Int
  battleTimestamp : Option Int
deriving DecidableEq, Repr

/-- A fresh `JsonLogFormatter`. -/
def initAnn : AnnState := ⟨none, none⟩

/-- One structured record; `timestamp` is milliseconds since the epoch
(`none` = the wall-clock fallback, see the section comment). -/
structure AnnotatedEvent where
  message : Chars
  timestamp : Option Int
  turn : Option Int
  player : Option Chars
deriving DecidableEq, Repr

/-- `JsonLogFormatter.format`: discard blank and bare-pipe lines, update
the carried timestamp and turn independently, extract the player from the
current line only, and emit one record. -/
def format (st : AnnState) (message : Chars) : AnnState × Option AnnotatedEvent :=
  let trimmed := trimChars message
  if trimmed = [] ∨ trimmed = ['|'] then (st, none)
  else
    let st :=
      match extractTimestamp trimmed with
      | some v => { st with battleTimestamp := some v }
      | none => st
    let st :=
      match extractTurn trimmed with
      | some v => { st with currentTurn := some v }
      | none => st
    (st,
      some
        { message := trimmed
          timestamp := st.battleTimestamp.map (· * 1000)
          turn := st.currentTurn
          player := extractPlayer trimmed })

/-- Feed a sequence of lines to one formatter instance, collecting the
records it emits. -/
def formatAll (msgs : List Chars) : List AnnotatedEvent :=
  (msgs.foldl
      (fun acc m =>
        match format acc.1 m with
        | (st, none) => (st, acc.2)
        | (st, some r) => (st, acc.2 ++ [r]))
      (initAnn, [])).2

/-- The read side of one engine chunk in `pipeJsonOutput`: split the chunk
on `'\n'` (locally, with no carried tail), skip empty fragments, and format
the rest. -/
def processChunkJson (st : AnnState) (chunk : Chars) : AnnState × List AnnotatedEvent :=
  (splitOnChar '\n' chunk).foldl
    (fun acc raw =>
      if raw = [] then acc
      else
        match format acc.1 raw with
        | (st', none) => (st', acc.2)
        | (st', some r) => (st', acc.2 ++ [r]))
    (st, [])

/-- `pipeJsonOutput`: all records produced for a finite sequence of engine
output chunks, with one formatter instance threaded through. -/
def pipeJsonOutput (chunks : List Chars) : List AnnotatedEvent :=
  (chunks.foldl
      (fun acc c =>
        match processChunkJson acc.1 c with
        | (st, rs) => (st, acc.2 ++ rs))
      (initAnn, [])).2

/-!
### Rendering an instant (`Date.prototype.toISOString`)

Model of `new Date(ms).toISOString()` for instants whose year lies in
0–9999 (the plain ISO-8601 format), using the proleptic Gregorian
calendar over the Unix epoch.
-/

/-- `n` rendered in decimal, zero-padded to `w` digits. -/
def padNat (w n : Nat) : Chars :=
  let ds := Nat.toDigits 10 n
  List.replicate (w - ds.length) '0' ++ ds

/-- Civil date (year, month, day) of a day count relative to 1970-01-01. -/
def civilOfDays (z0 : Int) : Int × Int × Int :=
  let z := z0 + 719468
  let era := z.fdiv 146097
  let doe := z - era * 146097
  let yoe := (doe - doe.fdiv 1460 + doe.fdiv 36524 - doe.fdiv 146096).fdiv 365
  let y := yoe + era * 400
  let doy := doe - (365 * yoe + yoe.fdiv 4 - yoe.fdiv 100)
  let mp := (5 * doy + 2).fdiv 153
  let d := doy - (153 * mp + 2).fdiv 5 + 1
  let m := mp + (if mp < 10 then 3 else -9)
  (y + (if m ≤ 2 then 1 else 0), m, d)

/-- `new Date(ms).toISOString()` for years 0–9999. -/
def isoOfMillis (ms : Int) : Chars :=
  let days := ms.fdiv 86400000
  let t := (ms.emod 86400000).toNat
  match civilOfDays days with
  | (y, mo, d) =>
    padNat 4 y.toNat ++ ['-'] ++ padNat 2 mo.toNat ++ ['-'] ++ padNat 2 d.toNat ++ ['T'] ++
      padNat 2 (t / 3600000) ++ [':'] ++ padNat 2 (t % 3600000 / 60000) ++ [':'] ++
      padNat 2 (t % 60000 / 1000) ++ ['.'] ++ padNat 3 (t % 1000) ++ ['Z']

/-!
## Configuration validation (`main`)

The prefix of `main` that runs before `new BattleStream(...)` is embedded
as a pure function: each `console.error` + `process.exit(1)` pair becomes
`Except.error` with a value naming the diagnostic, and reaching the
`BattleStream` construction becomes `Except.ok` with the assembled session
configuration.  File reading, team parsing/packing and PRNG seed
validation are external collaborators; they appear as oracle parameters in
`MainEnv`.
-/

/-- The two supported log formats (`LOG_FORMATS`). -/
inductive LogFormat where
  | text
  | json
deriving DecidableEq, Repr

/-- A seed accepted by `parseSeed`: the sentinel `random` generates one,
otherwise the explicit trimmed value is kept. -/
inductive SeedChoice where
  | generated
  | explicit (s : Chars)
deriving DecidableEq, Repr

/-- One fatal pre-session diagnostic (`console.error` + `process.exit(1)`). -/
inductive ConfigError where
  | unknownLogFormat
  | emptySeed
  | invalidSeed
  | teamFileError (slot : PlayerSlot)
  | teamConflict
deriving DecidableEq, Repr

/-- The parsed CLI values consumed by the validation prefix of `main`
(`parseArgs` string options are `none` when absent). -/
structure CLIValues where
  logFormat : Option Chars
  seed : Option Chars
  p1TeamFile : Option Chars
  p2TeamFile : Option Chars
  interactiveStdin : Bool

/-- External collaborators of `main`'s validation prefix.

Modelled from the spec: the team-loading collaborator (§6) reads, parses,
validates and packs a team file, failing fatally on unreadable, empty or
invalid input, and PRNG seed validation internals are explicitly out of
scope (§1); both are therefore oracles here.  `loadTeam` returns the
packed payload on success (`none` = any fatal load failure), and
`prngAccepts` tells whether the `PRNG` constructor accepts a seed. -/
structure MainEnv where
  loadTeam : Chars → PlayerSlot → Option Chars
  prngAccepts : Chars → Bool

/-- ASCII lower-casing (`value.toLowerCase()` on the option strings). -/
def toLowerChars (s : Chars) : Chars := s.map Char.toLower

/-- `parseLogFormat`: a missing (non-string) value falls back to `text`;
an unsupported string is fatal. -/
def parseLogFormatE (v : Option Chars) : Except ConfigError LogFormat :=
  match v with
  | none => .ok .text
  | some s =>
    let n := toLowerChars s
    if n = str "text" then .ok .text
    else if n = str "json" then .ok .json
    else .error .unknownLogFormat

/-- `parseSeed`: absent stays absent, an empty trimmed seed is fatal, the
`random` sentinel generates a seed, and any other value is validated by
the PRNG constructor. -/
def parseSeedE (env : MainEnv) (v : Option Chars) : Except ConfigError (Option SeedChoice) :=
  match v with
  | none => .ok none
  | some s =>
    let t := trimChars s
    if t = [] then .error .emptySeed
    else if toLowerChars t = str "random" then .ok (some .generated)
    else if env.prngAccepts t then .ok (some (.explicit t))
    else .error .invalidSeed

/-- `loadTeamFromFile`: an empty trimmed path is fatal, then the loading
collaborator either yields a packed payload (fatal if falsy) or fails. -/
def loadTeamE (env : MainEnv) (path : Chars) (slot : PlayerSlot) : Except ConfigError Chars :=
  if trimChars path = [] then .error (.teamFileError slot)
  else
    match env.loadTeam (trimChars path) slot with
    | none => .error (.teamFileError slot)
    | some packed => if packed = [] then .error (.teamFileError slot) else .ok packed

/-- The per-slot loop of `main`: only a truthy `--pN-team-file` path
triggers loading (`if (teamPath) teams[slot] = loadTeamFromFile(...)`). -/
def loadSlot (env : MainEnv) (path : Option Chars) (slot : PlayerSlot) :
    Except ConfigError (Option Chars) :=
  match path with
  | none => .ok none
  | some p => if p = [] then .ok none else (loadTeamE env p slot).map some

/-- The session configuration assembled at the `new BattleStream(...)`
call; producing it means the validation prefix passed. -/
structure SessionConfig where
  logFormat : LogFormat
  seed : Option SeedChoice
  teams : TeamsCfg
  interactive : Bool
deriving Repr

/-- The validation prefix of `main`, in source order: log format, seed,
team files for `p1` then `p2`, then the `--interactive-stdin` conflict
check, ending at the `BattleStream` construction. -/
def runMain (env : MainEnv) (v : CLIValues) : Except ConfigError SessionConfig :=
  match parseLogFormatE v.logFormat with
  | .error e => .error e
  | .ok fmt =>
    match parseSeedE env v.seed with
    | .error e => .error e
    | .ok sd =>
      match loadSlot env v.p1TeamFile .p1 with
      | .error e => .error e
      | .ok t1 =>
        match loadSlot env v.p2TeamFile .p2 with
        | .error e => .error e
        | .ok t2 =>
          if v.interactiveStdin && (truthy t1 || truthy t2) then .error .teamConflict
          else .ok ⟨fmt, sd, ⟨t1, t2⟩, v.interactiveStdin⟩

/-!
## Splitter lemmas
-/

@[simp] theorem splitLines_nil : splitLines [] = ([], []) := rfl

theorem splitLines_cons (c : Char) (rest : Chars) :
    splitLines (c :: rest) =
      if c = '\n' then ([] :: (splitLines rest).1, (splitLines rest).2)
      else
        match (splitLines rest).1 with
        | l :: ls2 => ((c :: l) :: ls2, (splitLines rest).2)
        | [] => ([], c :: (splitLines rest).2) := by
  simp only [splitLines]

/-- Concatenate complete lines back, restoring the `'\n'` terminators. -/
def joinLines (ls : List Chars) : Chars := (ls.map (· ++ ['\n'])).flatten

@[simp] theorem joinLines_nil : joinLines [] = [] := rfl

@[simp] theorem joinLines_cons (l : Chars) (ls : List Chars) :
    joinLines (l :: ls) = l ++ '\n' :: joinLines ls := by
  simp [joinLines]

theorem joinLines_append (a b : List Chars) :
    joinLines (a ++ b) = joinLines a ++ joinLines b := by
  simp [joinLines]

/-- The splitter loses nothing: lines plus tail reassemble the input. -/
theorem splitLines_reconstruct (s : Chars) :
    joinLines (splitLines s).1 ++ (splitLines s).2 = s := by
  induction s with
  | nil => simp
  | cons c rest ih =>
    rw [splitLines_cons]
    by_cases hc : c = '\n'
    · subst hc; simpa using ih
    · simp only [if_neg hc]
      rcases h : (splitLines rest).1 with _ | ⟨l, ls2⟩
      · rw [h] at ih; simpa using ih
      · rw [h] at ih; simpa using ih

/-- Complete lines contain no newline character. -/
theorem splitLines_lines_no_nl (s : Chars) :
    ∀ l ∈ (splitLines s).1, '\n' ∉ l := by
  induction s with
  | nil => simp
  | cons c rest ih =>
    rw [splitLines_cons]
    by_cases hc : c = '\n'
    · subst hc; simpa using ih
    · simp only [if_neg hc]
      rcases h : (splitLines rest).1 with _ | ⟨l, ls2⟩
      · simp
      · rw [h] at ih
        intro l' hl'
        rcases List.mem_cons.1 hl' with h' | h'
        · subst h'
          intro hmem
          rcases List.mem_cons.1 hmem with h'' | h''
          · exact hc h''.symm
          · exact ih l (List.mem_cons_self _ _) h''
        · exact ih l' (List.mem_cons_of_mem _ h')

/-- The unterminated tail contains no newline character. -/
theorem splitLines_snd_no_nl (s : Chars) : '\n' ∉ (splitLines s).2 := by
  induction s with
  | nil => simp
  | cons c rest ih =>
    rw [splitLines_cons]
    by_cases hc : c = '\n'
    · subst hc; simpa using ih
    · simp only [if_neg hc]
      rcases h : (splitLines rest).1 with _ | ⟨l, ls2⟩
      · intro hmem
        rcases List.mem_cons.1 hmem with h' | h'
        · exact hc h'.symm
        · exact ih h'
      · simpa using ih

/-- A newline-free string has no complete lines. -/
theorem splitLines_of_no_nl (s : Chars) (h : '\n' ∉ s) :
    splitLines s = ([], s) := by
  induction s with
  | nil => simp
  | cons c rest ih =>
    rw [splitLines_cons]
    have hc : ¬c = '\n' := fun hc => h (hc ▸ List.mem_cons_self _ _)
    have hrest : '\n' ∉ rest := fun hm => h (List.mem_cons_of_mem _ hm)
    rw [ih hrest]
    simp [hc]

/-- If the splitter extracts no complete line, the tail is the whole input. -/
theorem splitLines_snd_of_fst_nil (s : Chars) (h : (splitLines s).1 = []) :
    (splitLines s).2 = s := by
  have := splitLines_reconstruct s
  rwa [h, joinLines_nil, List.nil_append] at this

/-- Splitting a concatenation: the first part's complete lines come first,
and its unterminated tail is prepended to the rest before splitting. -/
theorem splitLines_append (a b : Chars) :
    splitLines (a ++ b) =
      ((splitLines a).1 ++ (splitLines ((splitLines a).2 ++ b)).1,
        (splitLines ((splitLines a).2 ++ b)).2) := by
  induction a with
  | nil => simp
  | cons c a' ih =>
    rw [List.cons_append, splitLines_cons, splitLines_cons, ih]
    by_cases hc : c = '\n'
    · simp [hc]
    · simp only [if_neg hc]
      rcases h : (splitLines a').1 with _ | ⟨l, ls2⟩
      · simp only [List.nil_append]
        rw [List.cons_append, splitLines_cons]
        rcases h2 : (splitLines ((splitLines a').2 ++ b)).1 with _ | ⟨x, xs⟩
        · simp [hc, h2]
        · simp [hc, h2]
      · simp [h]

/-!
## C4: line reassembly
-/

theorem reassemble_append (a b : List (Chars × Bool)) :
    reassemble (a ++ b) = reassemble a ++ reassemble b := by
  simp [reassemble]

theorem reassemble_map_true (ls : List Chars) :
    reassemble (ls.map fun l => (l, true)) = joinLines ls := by
  simp only [reassemble, joinLines, List.map_map]
  congr 1

theorem splitterFeed_eq (ps : List (Chars × Bool)) (buf chunk : Chars) :
    splitterFeed (ps, buf) chunk =
      (ps ++ ((splitLines (buf ++ chunk)).1).map (fun l => (l, true)),
        (splitLines (buf ++ chunk)).2) := by
  simp [splitterFeed]

theorem splitterFold_spec (chunks : List Chars) : ∀ ps buf,
    (reassemble (chunks.foldl splitterFeed (ps, buf)).1 ++
        (chunks.foldl splitterFeed (ps, buf)).2 =
      reassemble ps ++ buf ++ chunks.flatten) ∧
    (∀ p ∈ (chunks.foldl splitterFeed (ps, buf)).1, p ∈ ps ∨ '\n' ∉ p.1) ∧
    ('\n' ∉ buf → '\n' ∉ (chunks.foldl splitterFeed (ps, buf)).2) := by
  induction chunks with
  | nil =>
    intro ps buf
    refine ⟨by simp, fun p hp => Or.inl hp, fun h => h⟩
  | cons c cs ih =>
    intro ps buf
    rw [List.foldl_cons, splitterFeed_eq]
    obtain ⟨ih1, ih2, ih3⟩ :=
      ih (ps ++ ((splitLines (buf ++ c)).1).map (fun l => (l, true))) (splitLines (buf ++ c)).2
    refine ⟨?_, ?_, fun _ => ih3 (splitLines_snd_no_nl _)⟩
    · rw [ih1, reassemble_append, reassemble_map_true]
      have hrec := splitLines_reconstruct (buf ++ c)
      simp only [List.flatten_cons, List.append_assoc]
      rw [← List.append_assoc (joinLines (splitLines (buf ++ c)).1), hrec]
      simp
    · intro p hp
      rcases ih2 p hp with h | h
      · rcases List.mem_append.1 h with h' | h'
        · exact Or.inl h'
        · obtain ⟨l, hl, rfl⟩ := List.mem_map.1 h'
          exact Or.inr (splitLines_lines_no_nl _ l hl)
      · exact Or.inr h

/-- C4: for every finite text and every partition of it into chunks
(empty chunks and boundaries inside a line included), feeding the chunks
to the input line splitter and flushing at end-of-stream yields
`(line, hadTerminator)` pairs whose reassembly — each line followed by
`'\n'` exactly when its terminator flag is set — is the original text,
and no emitted line contains a newline character. -/
theorem c4_line_reassembly (chunks : List Chars) :
    reassemble (splitterRun chunks) = chunks.flatten ∧
    ∀ p ∈ splitterRun chunks, '\n' ∉ p.1 := by
  obtain ⟨h1, h2, h3⟩ := splitterFold_spec chunks [] []
  have hbuf : '\n' ∉ (chunks.foldl splitterFeed ([], [])).2 := h3 (by simp)
  constructor
  · show reassemble
        ((chunks.foldl splitterFeed ([], [])).1 ++
          (if (chunks.foldl splitterFeed ([], [])).2.isEmpty then []
            else [((chunks.foldl splitterFeed ([], [])).2, false)])) = chunks.flatten
    rw [reassemble_append]
    by_cases he : (chunks.foldl splitterFeed ([], [])).2.isEmpty
    · rw [if_pos he]
      rw [List.isEmpty_iff] at he
      rw [he, List.append_nil] at h1
      simpa [reassemble] using h1
    · rw [if_neg he]
      simpa [reassemble] using h1
  · intro p hp
    have hp' : p ∈ (chunks.foldl splitterFeed ([], [])).1 ++
        (if (chunks.foldl splitterFeed ([], [])).2.isEmpty then []
          else [((chunks.foldl splitterFeed ([], [])).2, false)]) := hp
    rcases List.mem_append.1 hp' with h | h
    · rcases h2 p h with h' | h'
      · simp at h'
      · exact h'
    · by_cases he : (chunks.foldl splitterFeed ([], [])).2.isEmpty
      · rw [if_pos he] at h; simp at h
      · rw [if_neg he] at h
        rcases List.mem_singleton.1 h with rfl
        exact hbuf

/-!
## Coordinator lemmas
-/

theorem not_p1cmd_of_marker (l : Chars) (h : isMarker l = true) : isP1Cmd l = false := by
  match l with
  | [] => simp [isMarker, str, List.isPrefixOf] at h
  | [c] =>
    have hs : str ">start" = ['>', 's', 't', 'a', 'r', 't'] := rfl
    rw [isMarker, hs] at h
    simp [List.isPrefixOf] at h
  | c :: d :: rest =>
    have hs : str ">start" = ['>', 's', 't', 'a', 'r', 't'] := rfl
    have hp : str ">player p1 " = ['>', 'p', 'l', 'a', 'y', 'e', 'r', ' ', 'p', '1', ' '] := rfl
    rw [isMarker, hs] at h
    rw [isP1Cmd, hp]
    simp only [List.isPrefixOf, Bool.and_eq_true, beq_iff_eq] at h ⊢
    obtain ⟨rfl, rfl, -⟩ := h
    simp

theorem not_p2cmd_of_marker (l : Chars) (h : isMarker l = true) : isP2Cmd l = false := by
  match l with
  | [] => simp [isMarker, str, List.isPrefixOf] at h
  | [c] =>
    have hs : str ">start" = ['>', 's', 't', 'a', 'r', 't'] := rfl
    rw [isMarker, hs] at h
    simp [List.isPrefixOf] at h
  | c :: d :: rest =>
    have hs : str ">start" = ['>', 's', 't', 'a', 'r', 't'] := rfl
    have hp : str ">player p2 " = ['>', 'p', 'l', 'a', 'y', 'e', 'r', ' ', 'p', '2', ' '] := rfl
    rw [isMarker, hs] at h
    rw [isP2Cmd, hp]
    simp only [List.isPrefixOf, Bool.and_eq_true, beq_iff_eq] at h ⊢
    obtain ⟨rfl, rfl, -⟩ := h
    simp

theorem not_marker_of_p1cmd (l : Chars) (h : isP1Cmd l = true) : isMarker l = false := by
  by_contra hm
  rw [Bool.not_eq_false] at hm
  rw [not_p1cmd_of_marker l hm] at h
  exact Bool.false_ne_true h

theorem lineFlags_marker (teams : TeamsCfg) (f : InjFlags) (l : Chars)
    (h : isMarker l = true) :
    lineFlags teams f l = ⟨!truthy teams.p1, !truthy teams.p2, true⟩ := by
  simp [lineFlags, h, not_p1cmd_of_marker l h, not_p2cmd_of_marker l h]

theorem lineFlags_not_marker (teams : TeamsCfg) (f : InjFlags) (l : Chars)
    (h : isMarker l = false) :
    lineFlags teams f l =
      ⟨f.handledP1 || isP1Cmd l, f.handledP2 || isP2Cmd l, f.pending⟩ := by
  simp only [lineFlags, h, Bool.false_eq_true, if_false]
  cases h1 : isP1Cmd l <;> cases h2 : isP2Cmd l <;> simp

theorem foldl_lineFlags_noMarker (teams : TeamsCfg) (g : List Chars) : ∀ f : InjFlags,
    (∀ l ∈ g, isMarker l = false) →
    g.foldl (lineFlags teams) f =
      ⟨f.handledP1 || g.any isP1Cmd, f.handledP2 || g.any isP2Cmd, f.pending⟩ := by
  induction g with
  | nil => intro f _; simp
  | cons l g' ih =>
    intro f hg
    rw [List.foldl_cons,
      lineFlags_not_marker teams f l (hg l (List.mem_cons_self _ _)),
      ih _ fun x hx => hg x (List.mem_cons_of_mem _ hx)]
    simp [Bool.or_assoc]

theorem handleLines_eq (teams : TeamsCfg) (ls : List Chars) : ∀ (f : InjFlags) (E : List OutEvent),
    handleLines teams (f, E) ls =
      (ls.foldl (lineFlags teams) f, E ++ ls.map fun l => OutEvent.fwd l true) := by
  induction ls with
  | nil => intro f E; simp [handleLines]
  | cons l ls' ih =>
    intro f E
    show handleLines teams (lineFlags teams f l, E ++ [OutEvent.fwd l true]) ls' = _
    rw [ih]
    simp

theorem feedChunk_eq (teams : TeamsCfg) (st : PipeState) (chunk : Chars) :
    feedChunk teams st chunk =
      if (((splitLines (st.buffer ++ chunk)).1).foldl (lineFlags teams) st.flags).pending then
        ⟨{ (injectTeams teams
              (((splitLines (st.buffer ++ chunk)).1).foldl (lineFlags teams) st.flags)).1 with
            pending := false },
          (splitLines (st.buffer ++ chunk)).2,
          st.output ++ ((splitLines (st.buffer ++ chunk)).1).map (fun l => OutEvent.fwd l true) ++
            (injectTeams teams
              (((splitLines (st.buffer ++ chunk)).1).foldl (lineFlags teams) st.flags)).2⟩
      else
        ⟨((splitLines (st.buffer ++ chunk)).1).foldl (lineFlags teams) st.flags,
          (splitLines (st.buffer ++ chunk)).2,
          st.output ++ ((splitLines (st.buffer ++ chunk)).1).map fun l => OutEvent.fwd l true⟩ := by
  show (match handleLines teams (st.flags, st.output) (splitLines (st.buffer ++ chunk)).1 with
    | (f, es) =>
      if f.pending then
        match injectTeams teams f with
        | (f2, es2) => (⟨{ f2 with pending := false }, (splitLines (st.buffer ++ chunk)).2,
            es ++ es2⟩ : PipeState)
      else ⟨f, (splitLines (st.buffer ++ chunk)).2, es⟩) = _
  rw [handleLines_eq]

theorem feedChunk_pending (teams : TeamsCfg) (st : PipeState) (chunk : Chars) :
    (feedChunk teams st chunk).flags.pending = false := by
  rw [feedChunk_eq]
  by_cases hp : (((splitLines (st.buffer ++ chunk)).1).foldl (lineFlags teams) st.flags).pending
  · simp [hp]
  · simp [hp]

theorem runChunks_pending (teams : TeamsCfg) (chunks : List Chars) :
    (runChunks teams chunks).flags.pending = false := by
  rw [runChunks]
  induction chunks using List.reverseRecOn with
  | nil => rfl
  | append_singleton cs c _ =>
    rw [List.foldl_append, List.foldl_cons, List.foldl_nil]
    exact feedChunk_pending teams _ c

theorem foldl_feedChunk_buffer (teams : TeamsCfg) (chunks : List Chars) : ∀ st : PipeState,
    '\n' ∉ st.buffer →
    (chunks.foldl (feedChunk teams) st).buffer = (splitLines (st.buffer ++ chunks.flatten)).2 := by
  induction chunks with
  | nil =>
    intro st h
    rw [List.foldl_nil, List.flatten_nil, List.append_nil, splitLines_of_no_nl _ h]
  | cons c cs ih =>
    intro st h
    have hb : (feedChunk teams st c).buffer = (splitLines (st.buffer ++ c)).2 := by
      rw [feedChunk_eq]
      by_cases hp : (((splitLines (st.buffer ++ c)).1).foldl (lineFlags teams) st.flags).pending <;>
        simp [hp]
    have hnl : '\n' ∉ (feedChunk teams st c).buffer := hb ▸ splitLines_snd_no_nl _
    rw [List.foldl_cons, ih _ hnl, hb, List.flatten_cons, ← List.append_assoc]
    conv_rhs => rw [splitLines_append (st.buffer ++ c) cs.flatten]

theorem runChunks_buffer (teams : TeamsCfg) (chunks : List Chars) :
    (runChunks teams chunks).buffer = (splitLines chunks.flatten).2 := by
  have := foldl_feedChunk_buffer teams chunks (initState teams) (by simp [initState])
  simpa [runChunks, initState] using this

theorem runChunks_buffer_no_nl (teams : TeamsCfg) (chunks : List Chars) :
    '\n' ∉ (runChunks teams chunks).buffer := by
  rw [runChunks_buffer]
  exact splitLines_snd_no_nl _

theorem foldl_feedChunk_quiet (teams : TeamsCfg) (chunks : List Chars) : ∀ st : PipeState,
    st.flags.pending = false →
    (splitLines (st.buffer ++ chunks.flatten)).1 = [] →
    chunks.foldl (feedChunk teams) st = ⟨st.flags, st.buffer ++ chunks.flatten, st.output⟩ := by
  induction chunks with
  | nil => intro st _ _; simp
  | cons c cs ih =>
    intro st hp hq0
    have hdec := splitLines_append (st.buffer ++ c) cs.flatten
    rw [List.flatten_cons, ← List.append_assoc] at hq0
    have hfst : (splitLines (st.buffer ++ c)).1 = [] ∧
        (splitLines ((splitLines (st.buffer ++ c)).2 ++ cs.flatten)).1 = [] := by
      have := congrArg Prod.fst hdec
      rw [hq0] at this
      exact List.append_eq_nil.1 this.symm
    have hsnd : (splitLines (st.buffer ++ c)).2 = st.buffer ++ c :=
      splitLines_snd_of_fst_nil _ hfst.1
    have hstep : feedChunk teams st c = ⟨st.flags, st.buffer ++ c, st.output⟩ := by
      rw [feedChunk_eq, hfst.1, hsnd]
      simp [hp]
    rw [List.foldl_cons, hstep, List.flatten_cons, ← List.append_assoc]
    have := ih ⟨st.flags, st.buffer ++ c, st.output⟩ hp (by rw [← hsnd]; exact hfst.2)
    simpa using this

theorem foldl_feedChunk_steady (teams : TeamsCfg) (chunks : List Chars) : ∀ st : PipeState,
    st.flags = ⟨true, true, false⟩ →
    '\n' ∉ st.buffer →
    (∀ l ∈ (splitLines (st.buffer ++ chunks.flatten)).1, isMarker l = false) →
    chunks.foldl (feedChunk teams) st =
      ⟨⟨true, true, false⟩, (splitLines (st.buffer ++ chunks.flatten)).2,
        st.output ++ ((splitLines (st.buffer ++ chunks.flatten)).1).map
          fun l => OutEvent.fwd l true⟩ := by
  induction chunks with
  | nil =>
    intro st hf hnl _
    rw [List.foldl_nil, List.flatten_nil, List.append_nil, splitLines_of_no_nl _ hnl]
    simp [← hf]
  | cons c cs ih =>
    intro st hf hnl hm
    have hdec := splitLines_append (st.buffer ++ c) cs.flatten
    rw [List.flatten_cons, ← List.append_assoc] at hm
    have hfst := congrArg Prod.fst hdec
    have hsnd := congrArg Prod.snd hdec
    have hm1 : ∀ l ∈ (splitLines (st.buffer ++ c)).1, isMarker l = false := fun l hl =>
      hm l (by rw [hfst]; exact List.mem_append_left _ hl)
    have hstep : feedChunk teams st c =
        ⟨⟨true, true, false⟩, (splitLines (st.buffer ++ c)).2,
          st.output ++ ((splitLines (st.buffer ++ c)).1).map fun l => OutEvent.fwd l true⟩ := by
      rw [feedChunk_eq, hf, foldl_lineFlags_noMarker teams _ _ hm1]
      simp
    rw [List.foldl_cons, hstep]
    have hnl2 : '\n' ∉ (splitLines (st.buffer ++ c)).2 := splitLines_snd_no_nl _
    have hm2 : ∀ l ∈ (splitLines ((splitLines (st.buffer ++ c)).2 ++ cs.flatten)).1,
        isMarker l = false := fun l hl =>
      hm l (by rw [hfst]; exact List.mem_append_right _ hl)
    have := ih ⟨⟨true, true, false⟩, (splitLines (st.buffer ++ c)).2,
      st.output ++ ((splitLines (st.buffer ++ c)).1).map fun l => OutEvent.fwd l true⟩
      rfl hnl2 hm2
    rw [this, List.flatten_cons, ← List.append_assoc, hsnd, hfst]
    simp

theorem injCount_append (s : PlayerSlot) (a b : List OutEvent) :
    injCount s (a ++ b) = injCount s a + injCount s b := by
  simp [injCount, List.countP_append]

theorem injCount_fwd_map (s : PlayerSlot) (ls : List Chars) :
    injCount s (ls.map fun l => OutEvent.fwd l true) = 0 := by
  induction ls with
  | nil => rfl
  | cons l ls' ih => simp [injCount, List.countP_cons, ← ih]

theorem injCount_eq_zero_of_fwd (s : PlayerSlot) (es : List OutEvent)
    (h : ∀ e ∈ es, isInject e = false) : injCount s es = 0 := by
  induction es with
  | nil => rfl
  | cons e es' ih =>
    have he := h e (List.mem_cons_self _ _)
    match e with
    | .fwd l b =>
      simpa [injCount, List.countP_cons] using ih fun x hx => h x (List.mem_cons_of_mem _ hx)
    | .inject s' t => simp [isInject] at he

theorem injectTeams_both (teams : TeamsCfg) (h1 : truthy teams.p1 = true)
    (h2 : truthy teams.p2 = true) :
    injectTeams teams ⟨false, false, true⟩ =
      (⟨true, true, true⟩,
        [OutEvent.inject .p1 (teams.p1.getD []), OutEvent.inject .p2 (teams.p2.getD [])]) := by
  simp [injectTeams, h1, h2]

theorem injectTeams_p2_only (teams : TeamsCfg) (h2 : truthy teams.p2 = true) :
    injectTeams teams ⟨true, false, true⟩ =
      (⟨true, true, true⟩, [OutEvent.inject .p2 (teams.p2.getD [])]) := by
  simp [injectTeams, h2]

theorem flushPipe_eq (teams : TeamsCfg) (st : PipeState) :
    flushPipe teams st =
      if st.buffer.isEmpty then
        (if st.flags.pending then st.output ++ (injectTeams teams st.flags).2 else st.output)
      else
        (if (lineFlags teams st.flags st.buffer).pending then
          st.output ++ [OutEvent.fwd st.buffer false] ++
            (injectTeams teams (lineFlags teams st.flags st.buffer)).2
        else st.output ++ [OutEvent.fwd st.buffer false]) := by
  rw [flushPipe]
  by_cases he : st.buffer.isEmpty
  · simp [he]
  · simp [he, handleLine, List.append_assoc]

theorem foldl_lineFlags_marker_group (teams : TeamsCfg) (marker : Chars) (gtail : List Chars)
    (F : InjFlags) (hm : isMarker marker = true) (hgm : ∀ l ∈ gtail, isMarker l = false) :
    (marker :: gtail).foldl (lineFlags teams) F =
      ⟨!truthy teams.p1 || gtail.any isP1Cmd, !truthy teams.p2 || gtail.any isP2Cmd, true⟩ := by
  rw [List.foldl_cons, lineFlags_marker teams F marker hm,
    foldl_lineFlags_noMarker teams gtail _ hgm]

/-- C1: with teams supplied for both slots and a controller stream made of
one `>start` marker line followed only by ordinary command lines (no
further markers, no explicit `>player p1 ` / `>player p2 ` commands, over
any chunking), `pipeInputWithTeams` writes exactly one synthetic `>player`
command per slot, both placed after every line delivered in the same chunk
as the marker (the chunk that completes the marker, before which no line
is complete) and before any line of a later chunk. -/
theorem c1_injection_exactly_once (teams : TeamsCfg) (chunks : List Chars)
    (marker : Chars) (crest : List Chars) (buf : Chars)
    (h1 : truthy teams.p1 = true) (h2 : truthy teams.p2 = true)
    (hsplit : splitLines chunks.flatten = (marker :: crest, buf))
    (hm : isMarker marker = true)
    (hrest : ∀ l ∈ crest, isMarker l = false ∧ isP1Cmd l = false ∧ isP2Cmd l = false)
    (hbuf : buf = [] ∨ isMarker buf = false) :
    injCount .p1 (runPipe teams chunks) = 1 ∧
    injCount .p2 (runPipe teams chunks) = 1 ∧
    ∃ k < chunks.length,
      (splitLines ((chunks.take k).flatten)).1 = [] ∧
      ∃ post : List OutEvent,
        runPipe teams chunks =
          ((splitLines ((chunks.take (k + 1)).flatten)).1).map (fun l => OutEvent.fwd l true) ++
            [OutEvent.inject .p1 (teams.p1.getD []), OutEvent.inject .p2 (teams.p2.getD [])] ++
            post ∧
        ∀ e ∈ post, isInject e = false := by
  classical
  have hne : chunks ≠ [] := by
    intro h
    rw [h] at hsplit
    simp at hsplit
  have hlen : 1 ≤ chunks.length := List.length_pos.2 hne
  have hPlen : (splitLines ((chunks.take (chunks.length - 1 + 1)).flatten)).1 ≠ [] := by
    have ht : chunks.take (chunks.length - 1 + 1) = chunks :=
      List.take_of_length_le (by omega)
    rw [ht, hsplit]
    simp
  have hPex : ∃ n, (splitLines ((chunks.take (n + 1)).flatten)).1 ≠ [] :=
    ⟨chunks.length - 1, hPlen⟩
  set k := Nat.find hPex with hkdef
  have hPk : (splitLines ((chunks.take (k + 1)).flatten)).1 ≠ [] := Nat.find_spec hPex
  have hklt : k < chunks.length := by
    have := Nat.find_min' hPex hPlen
    omega
  have hq : (splitLines ((chunks.take k).flatten)).1 = [] := by
    rcases Nat.eq_zero_or_pos k with hk0 | hkpos
    · rw [hk0]; simp
    · have hmin := Nat.find_min hPex (show k - 1 < k by omega)
      have hsucc : k - 1 + 1 = k := by omega
      rw [hsucc] at hmin
      simpa using hmin
  -- decomposition of the whole stream at the marker chunk
  have htake1 : chunks.take (k + 1) = chunks.take k ++ [chunks.get ⟨k, hklt⟩] := by
    rw [List.get_eq_getElem]
    exact (List.take_concat_get' chunks k hklt).symm
  have hflat : (chunks.take (k + 1)).flatten ++ (chunks.drop (k + 1)).flatten =
      chunks.flatten := by
    rw [← List.flatten_append, List.take_append_drop]
  have hdec := splitLines_append ((chunks.take (k + 1)).flatten) ((chunks.drop (k + 1)).flatten)
  rw [hflat, hsplit] at hdec
  have hfsteq : marker :: crest =
      (splitLines ((chunks.take (k + 1)).flatten)).1 ++
        (splitLines ((splitLines ((chunks.take (k + 1)).flatten)).2 ++
          (chunks.drop (k + 1)).flatten)).1 := congrArg Prod.fst hdec
  have hsndeq : buf =
      (splitLines ((splitLines ((chunks.take (k + 1)).flatten)).2 ++
        (chunks.drop (k + 1)).flatten)).2 := congrArg Prod.snd hdec
  obtain ⟨gtail, hg, hcrest⟩ : ∃ gtail,
      (splitLines ((chunks.take (k + 1)).flatten)).1 = marker :: gtail ∧
      crest = gtail ++ (splitLines ((splitLines ((chunks.take (k + 1)).flatten)).2 ++
        (chunks.drop (k + 1)).flatten)).1 := by
    match hG : (splitLines ((chunks.take (k + 1)).flatten)).1 with
    | [] => exact absurd hG hPk
    | x :: xs =>
      rw [hG, List.cons_append] at hfsteq
      injection hfsteq with hx hxs
      exact ⟨xs, by rw [hx], hxs⟩
  have hgtail_sub : ∀ l ∈ gtail, l ∈ crest := fun l hl => by
    rw [hcrest]; exact List.mem_append_left _ hl
  have hg'_sub : ∀ l ∈ (splitLines ((splitLines ((chunks.take (k + 1)).flatten)).2 ++
      (chunks.drop (k + 1)).flatten)).1, l ∈ crest := fun l hl => by
    rw [hcrest]; exact List.mem_append_right _ hl
  -- the quiet phase before the marker chunk
  have hquiet : (chunks.take k).foldl (feedChunk teams) (initState teams) =
      ⟨(initState teams).flags, (chunks.take k).flatten, []⟩ := by
    have := foldl_feedChunk_quiet teams (chunks.take k) (initState teams) rfl
      (by simpa [initState] using hq)
    simpa [initState] using this
  -- the marker chunk itself
  have hJc : (chunks.take k).flatten ++ chunks.get ⟨k, hklt⟩ =
      (chunks.take (k + 1)).flatten := by
    rw [htake1, List.flatten_append]
    simp
  have hfold : ((splitLines ((chunks.take (k + 1)).flatten)).1).foldl (lineFlags teams)
      (initState teams).flags = ⟨false, false, true⟩ := by
    rw [hg, foldl_lineFlags_marker_group teams marker gtail _ hm
      fun l hl => (hrest l (hgtail_sub l hl)).1]
    have ha1 : gtail.any isP1Cmd = false :=
      List.any_eq_false.2 fun l hl => by
        simp [(hrest l (hgtail_sub l hl)).2.1]
    have ha2 : gtail.any isP2Cmd = false :=
      List.any_eq_false.2 fun l hl => by
        simp [(hrest l (hgtail_sub l hl)).2.2]
    rw [h1, h2, ha1, ha2]
    rfl
  have hstep : feedChunk teams ⟨(initState teams).flags, (chunks.take k).flatten, []⟩
      (chunks.get ⟨k, hklt⟩) =
      ⟨⟨true, true, false⟩, (splitLines ((chunks.take (k + 1)).flatten)).2,
        ((splitLines ((chunks.take (k + 1)).flatten)).1).map (fun l => OutEvent.fwd l true) ++
          [OutEvent.inject .p1 (teams.p1.getD []), OutEvent.inject .p2 (teams.p2.getD [])]⟩ := by
    rw [feedChunk_eq]
    show (if (((splitLines ((chunks.take k).flatten ++ chunks.get ⟨k, hklt⟩)).1).foldl
        (lineFlags teams) (initState teams).flags).pending then _ else _) = _
    rw [hJc, hfold, injectTeams_both teams h1 h2]
    simp
  -- the steady phase after the marker chunk
  have hrun : runChunks teams chunks =
      ⟨⟨true, true, false⟩, buf,
        ((splitLines ((chunks.take (k + 1)).flatten)).1).map (fun l => OutEvent.fwd l true) ++
          [OutEvent.inject .p1 (teams.p1.getD []), OutEvent.inject .p2 (teams.p2.getD [])] ++
          ((splitLines ((splitLines ((chunks.take (k + 1)).flatten)).2 ++
            (chunks.drop (k + 1)).flatten)).1).map (fun l => OutEvent.fwd l true)⟩ := by
    have hsplitChunks : chunks = chunks.take (k + 1) ++ chunks.drop (k + 1) :=
      (List.take_append_drop _ _).symm
    rw [runChunks]
    conv_lhs => rw [hsplitChunks]
    rw [List.foldl_append, htake1, List.foldl_append, hquiet, List.foldl_cons, List.foldl_nil,
      hstep]
    have := foldl_feedChunk_steady teams (chunks.drop (k + 1))
      ⟨⟨true, true, false⟩, (splitLines ((chunks.take (k + 1)).flatten)).2,
        ((splitLines ((chunks.take (k + 1)).flatten)).1).map (fun l => OutEvent.fwd l true) ++
          [OutEvent.inject .p1 (teams.p1.getD []), OutEvent.inject .p2 (teams.p2.getD [])]⟩
      rfl (splitLines_snd_no_nl _)
      (fun l hl => (hrest l (hg'_sub l hl)).1)
    dsimp only at this
    rw [this, ← hsndeq, htake1]
  -- the end-of-stream flush
  have hfinal : runPipe teams chunks =
      ((splitLines ((chunks.take (k + 1)).flatten)).1).map (fun l => OutEvent.fwd l true) ++
        [OutEvent.inject .p1 (teams.p1.getD []), OutEvent.inject .p2 (teams.p2.getD [])] ++
        (((splitLines ((splitLines ((chunks.take (k + 1)).flatten)).2 ++
            (chunks.drop (k + 1)).flatten)).1).map (fun l => OutEvent.fwd l true) ++
          (if buf.isEmpty then [] else [OutEvent.fwd buf false])) := by
    rw [runPipe, hrun, flushPipe_eq]
    by_cases hbe : buf.isEmpty
    · simp [hbe]
    · have hbm : isMarker buf = false := by
        rcases hbuf with h | h
        · rw [h] at hbe; simp at hbe
        · exact h
      have hpend : (lineFlags teams (⟨true, true, false⟩ : InjFlags) buf).pending = false := by
        rw [lineFlags_not_marker teams _ buf hbm]
      simp [hbe, hpend, List.append_assoc]
  refine ⟨?_, ?_, k, hklt, hq, ?_⟩
  · rw [hfinal, injCount_append, injCount_append, injCount_fwd_map, injCount_append,
      injCount_fwd_map]
    by_cases hbe : buf.isEmpty <;> simp [hbe, injCount, List.countP_cons]
  · rw [hfinal, injCount_append, injCount_append, injCount_fwd_map, injCount_append,
      injCount_fwd_map]
    by_cases hbe : buf.isEmpty <;> simp [hbe, injCount, List.countP_cons]
  · refine ⟨((splitLines ((splitLines ((chunks.take (k + 1)).flatten)).2 ++
        (chunks.drop (k + 1)).flatten)).1).map (fun l => OutEvent.fwd l true) ++
        (if buf.isEmpty then [] else [OutEvent.fwd buf false]), ?_, ?_⟩
    · rw [hfinal, List.append_assoc]
    · intro e he
      rcases List.mem_append.1 he with h | h
      · obtain ⟨l, -, rfl⟩ := List.mem_map.1 h
        rfl
      · by_cases hbe : buf.isEmpty
        · rw [if_pos hbe] at h; simp at h
        · rw [if_neg hbe] at h
          rcases List.mem_singleton.1 h with rfl
          rfl

/-- Witness for C1 at a concrete stream: teams for both slots, a marker
line and two ordinary commands split over two chunks. -/
theorem c1_injection_exactly_once_witness :
    injCount .p1 (runPipe ⟨some (str "A"), some (str "B")⟩
      [str ">start x\n>move a\n", str ">move b\n"]) = 1 ∧
    injCount .p2 (runPipe ⟨some (str "A"), some (str "B")⟩
      [str ">start x\n>move a\n", str ">move b\n"]) = 1 ∧
    ∃ k < ([str ">start x\n>move a\n", str ">move b\n"] : List Chars).length,
      (splitLines ((([str ">start x\n>move a\n", str ">move b\n"] : List Chars).take k).flatten)).1
        = [] ∧
      ∃ post : List OutEvent,
        runPipe ⟨some (str "A"), some (str "B")⟩ [str ">start x\n>move a\n", str ">move b\n"] =
          ((splitLines ((([str ">start x\n>move a\n", str ">move b\n"] : List Chars).take
              (k + 1)).flatten)).1).map (fun l => OutEvent.fwd l true) ++
            [OutEvent.inject .p1 ((some (str "A")).getD []),
              OutEvent.inject .p2 ((some (str "B")).getD [])] ++ post ∧
        ∀ e ∈ post, isInject e = false :=
  c1_injection_exactly_once ⟨some (str "A"), some (str "B")⟩
    [str ">start x\n>move a\n", str ">move b\n"] (str ">start x")
    [str ">move a", str ">move b"] [] (by decide) (by decide) (by decide) (by decide)
    (by decide) (by decide)

/-- C2: with teams supplied for both slots, one `>start` marker opening
the stream, and an explicit `>player p1 ` command completed in the same
chunk as the marker (i.e. before the injection point for that marker), no
synthetic command is ever written for `p1` in that session, while `p2`
still receives its synthetic command exactly once. -/
theorem c2_injection_deference (teams : TeamsCfg) (chunks : List Chars)
    (marker : Chars) (crest : List Chars) (buf : Chars)
    (h1 : truthy teams.p1 = true) (h2 : truthy teams.p2 = true)
    (hsplit : splitLines chunks.flatten = (marker :: crest, buf))
    (hm : isMarker marker = true)
    (hrest : ∀ l ∈ crest, isMarker l = false ∧ isP2Cmd l = false)
    (hbuf : buf = [] ∨ isMarker buf = false)
    (hp1 : ∃ k, (splitLines ((chunks.take k).flatten)).1 = [] ∧
      ∃ l ∈ (splitLines ((chunks.take (k + 1)).flatten)).1, isP1Cmd l = true) :
    injCount .p1 (runPipe teams chunks) = 0 ∧
    injCount .p2 (runPipe teams chunks) = 1 := by
  obtain ⟨k, hq, l0, hl0mem, hl0p1⟩ := hp1
  have hklt : k < chunks.length := by
    by_contra hge
    push_neg at hge
    rw [List.take_of_length_le hge, hsplit] at hq
    simp at hq
  have hPk : (splitLines ((chunks.take (k + 1)).flatten)).1 ≠ [] :=
    List.ne_nil_of_mem hl0mem
  have htake1 : chunks.take (k + 1) = chunks.take k ++ [chunks.get ⟨k, hklt⟩] := by
    rw [List.get_eq_getElem]
    exact (List.take_concat_get' chunks k hklt).symm
  have hflat : (chunks.take (k + 1)).flatten ++ (chunks.drop (k + 1)).flatten =
      chunks.flatten := by
    rw [← List.flatten_append, List.take_append_drop]
  have hdec := splitLines_append ((chunks.take (k + 1)).flatten) ((chunks.drop (k + 1)).flatten)
  rw [hflat, hsplit] at hdec
  have hfsteq : marker :: crest =
      (splitLines ((chunks.take (k + 1)).flatten)).1 ++
        (splitLines ((splitLines ((chunks.take (k + 1)).flatten)).2 ++
          (chunks.drop (k + 1)).flatten)).1 := congrArg Prod.fst hdec
  have hsndeq : buf =
      (splitLines ((splitLines ((chunks.take (k + 1)).flatten)).2 ++
        (chunks.drop (k + 1)).flatten)).2 := congrArg Prod.snd hdec
  obtain ⟨gtail, hg, hcrest⟩ : ∃ gtail,
      (splitLines ((chunks.take (k + 1)).flatten)).1 = marker :: gtail ∧
      crest = gtail ++ (splitLines ((splitLines ((chunks.take (k + 1)).flatten)).2 ++
        (chunks.drop (k + 1)).flatten)).1 := by
    match hG : (splitLines ((chunks.take (k + 1)).flatten)).1 with
    | [] => exact absurd hG hPk
    | x :: xs =>
      rw [hG, List.cons_append] at hfsteq
      injection hfsteq with hx hxs
      exact ⟨xs, by rw [hx], hxs⟩
  have hgtail_sub : ∀ l ∈ gtail, l ∈ crest := fun l hl => by
    rw [hcrest]; exact List.mem_append_left _ hl
  have hg'_sub : ∀ l ∈ (splitLines ((splitLines ((chunks.take (k + 1)).flatten)).2 ++
      (chunks.drop (k + 1)).flatten)).1, l ∈ crest := fun l hl => by
    rw [hcrest]; exact List.mem_append_right _ hl
  have hl0tail : l0 ∈ gtail := by
    rw [hg] at hl0mem
    rcases List.mem_cons.1 hl0mem with rfl | h
    · rw [not_p1cmd_of_marker l0 hm] at hl0p1
      exact absurd hl0p1 (by simp)
    · exact h
  have hquiet : (chunks.take k).foldl (feedChunk teams) (initState teams) =
      ⟨(initState teams).flags, (chunks.take k).flatten, []⟩ := by
    have := foldl_feedChunk_quiet teams (chunks.take k) (initState teams) rfl
      (by simpa [initState] using hq)
    simpa [initState] using this
  have hJc : (chunks.take k).flatten ++ chunks.get ⟨k, hklt⟩ =
      (chunks.take (k + 1)).flatten := by
    rw [htake1, List.flatten_append]
    simp
  have hfold : ((splitLines ((chunks.take (k + 1)).flatten)).1).foldl (lineFlags teams)
      (initState teams).flags = ⟨true, false, true⟩ := by
    rw [hg, foldl_lineFlags_marker_group teams marker gtail _ hm
      fun l hl => (hrest l (hgtail_sub l hl)).1]
    have ha1 : gtail.any isP1Cmd = true := List.any_eq_true.2 ⟨l0, hl0tail, hl0p1⟩
    have ha2 : gtail.any isP2Cmd = false :=
      List.any_eq_false.2 fun l hl => by
        simp [(hrest l (hgtail_sub l hl)).2]
    rw [h1, h2, ha1, ha2]
    rfl
  have hstep : feedChunk teams ⟨(initState teams).flags, (chunks.take k).flatten, []⟩
      (chunks.get ⟨k, hklt⟩) =
      ⟨⟨true, true, false⟩, (splitLines ((chunks.take (k + 1)).flatten)).2,
        ((splitLines ((chunks.take (k + 1)).flatten)).1).map (fun l => OutEvent.fwd l true) ++
          [OutEvent.inject .p2 (teams.p2.getD [])]⟩ := by
    rw [feedChunk_eq]
    show (if (((splitLines ((chunks.take k).flatten ++ chunks.get ⟨k, hklt⟩)).1).foldl
        (lineFlags teams) (initState teams).flags).pending then _ else _) = _
    rw [hJc, hfold, injectTeams_p2_only teams h2]
    simp
  have hrun : runChunks teams chunks =
      ⟨⟨true, true, false⟩, buf,
        ((splitLines ((chunks.take (k + 1)).flatten)).1).map (fun l => OutEvent.fwd l true) ++
          [OutEvent.inject .p2 (teams.p2.getD [])] ++
          ((splitLines ((splitLines ((chunks.take (k + 1)).flatten)).2 ++
            (chunks.drop (k + 1)).flatten)).1).map (fun l => OutEvent.fwd l true)⟩ := by
    have hsplitChunks : chunks = chunks.take (k + 1) ++ chunks.drop (k + 1) :=
      (List.take_append_drop _ _).symm
    rw [runChunks]
    conv_lhs => rw [hsplitChunks]
    rw [List.foldl_append, htake1, List.foldl_append, hquiet, List.foldl_cons, List.foldl_nil,
      hstep]
    have := foldl_feedChunk_steady teams (chunks.drop (k + 1))
      ⟨⟨true, true, false⟩, (splitLines ((chunks.take (k + 1)).flatten)).2,
        ((splitLines ((chunks.take (k + 1)).flatten)).1).map (fun l => OutEvent.fwd l true) ++
          [OutEvent.inject .p2 (teams.p2.getD [])]⟩
      rfl (splitLines_snd_no_nl _)
      (fun l hl => (hrest l (hg'_sub l hl)).1)
    dsimp only at this
    rw [this, ← hsndeq, htake1]
  have hfinal : runPipe teams chunks =
      ((splitLines ((chunks.take (k + 1)).flatten)).1).map (fun l => OutEvent.fwd l true) ++
        [OutEvent.inject .p2 (teams.p2.getD [])] ++
        (((splitLines ((splitLines ((chunks.take (k + 1)).flatten)).2 ++
            (chunks.drop (k + 1)).flatten)).1).map (fun l => OutEvent.fwd l true) ++
          (if buf.isEmpty then [] else [OutEvent.fwd buf false])) := by
    rw [runPipe, hrun, flushPipe_eq]
    by_cases hbe : buf.isEmpty
    · simp [hbe]
    · have hbm : isMarker buf = false := by
        rcases hbuf with h | h
        · rw [h] at hbe; simp at hbe
        · exact h
      have hpend : (lineFlags teams (⟨true, true, false⟩ : InjFlags) buf).pending = false := by
        rw [lineFlags_not_marker teams _ buf hbm]
      simp [hbe, hpend, List.append_assoc]
  constructor
  · rw [hfinal, injCount_append, injCount_append, injCount_fwd_map, injCount_append,
      injCount_fwd_map]
    by_cases hbe : buf.isEmpty <;> simp [hbe, injCount, List.countP_cons]
  · rw [hfinal, injCount_append, injCount_append, injCount_fwd_map, injCount_append,
      injCount_fwd_map]
    by_cases hbe : buf.isEmpty <;> simp [hbe, injCount, List.countP_cons]

/-- Witness for C2 at a concrete stream: the controller issues its own
`>player p1 ` command in the same chunk as the marker. -/
theorem c2_injection_deference_witness :
    injCount .p1 (runPipe ⟨some (str "A"), some (str "B")⟩
      [str ">start x\n>player p1 q\n", str ">move b\n"]) = 0 ∧
    injCount .p2 (runPipe ⟨some (str "A"), some (str "B")⟩
      [str ">start x\n>player p1 q\n", str ">move b\n"]) = 1 :=
  c2_injection_deference ⟨some (str "A"), some (str "B")⟩
    [str ">start x\n>player p1 q\n", str ">move b\n"] (str ">start x")
    [str ">player p1 q", str ">move b"] [] (by decide) (by decide) (by decide) (by decide)
    (by decide) (by decide)
    ⟨0, by decide, str ">player p1 q", by decide, by decide⟩

/-- C3 counterexample: a stream whose single chunk contains two `>start`
marker lines, with teams supplied for both slots and no explicit player
commands.  The coordinator batches injection per chunk, so slot `p1`
receives only one synthetic command, not one per marker as the claim
states. -/
theorem c3_multi_session_counterexample :
    ((splitLines (([str ">start x\n>start y\n"] : List Chars).flatten)).1).countP isMarker = 2 ∧
    truthy (some (str "A")) = true ∧ truthy (some (str "B")) = true ∧
    injCount .p1 (runPipe ⟨some (str "A"), some (str "B")⟩ [str ">start x\n>start y\n"]) = 1 ∧
    injCount .p1 (runPipe ⟨some (str "A"), some (str "B")⟩ [str ">start x\n>start y\n"]) ≠
      ((splitLines (([str ">start x\n>start y\n"] : List Chars).flatten)).1).countP isMarker := by
  decide

theorem foldl_lineFlags_session (teams : TeamsCfg) (h1 : truthy teams.p1 = true)
    (h2 : truthy teams.p2 = true) (g : List Chars) : ∀ f : InjFlags,
    (∀ l ∈ g, isP1Cmd l = false ∧ isP2Cmd l = false) →
    g.foldl (lineFlags teams) f = if g.any isMarker then ⟨false, false, true⟩ else f := by
  induction g with
  | nil => intro f _; simp
  | cons l g' ih =>
    intro f hg
    rw [List.foldl_cons]
    by_cases hl : isMarker l = true
    · rw [lineFlags_marker teams f l hl, h1, h2,
        ih _ fun x hx => hg x (List.mem_cons_of_mem _ hx)]
      have : (l :: g').any isMarker = true := List.any_eq_true.2 ⟨l, List.mem_cons_self _ _, hl⟩
      rw [this]
      cases hany : g'.any isMarker <;> simp
    · rw [Bool.not_eq_true] at hl
      obtain ⟨hc1, hc2⟩ := hg l (List.mem_cons_self _ _)
      rw [lineFlags_not_marker teams f l hl, hc1, hc2,
        Bool.or_false, Bool.or_false]
      rw [ih _ fun x hx => hg x (List.mem_cons_of_mem _ hx)]
      have : (l :: g').any isMarker = g'.any isMarker := by simp [hl]
      rw [this]

theorem foldl_feedChunk_session_count (teams : TeamsCfg)
    (h1 : truthy teams.p1 = true) (h2 : truthy teams.p2 = true) :
    ∀ (cs : List Chars) (st : PipeState),
    st.flags.pending = false →
    '\n' ∉ st.buffer →
    (∀ l ∈ (splitLines (st.buffer ++ cs.flatten)).1, isP1Cmd l = false ∧ isP2Cmd l = false) →
    (∀ k < cs.length,
      ((splitLines (st.buffer ++ (cs.take (k + 1)).flatten)).1).countP isMarker ≤
        ((splitLines (st.buffer ++ (cs.take k).flatten)).1).countP isMarker + 1) →
    ∃ (f2 : InjFlags) (out2 : List OutEvent),
      cs.foldl (feedChunk teams) st =
        ⟨f2, (splitLines (st.buffer ++ cs.flatten)).2, st.output ++ out2⟩ ∧
      f2.pending = false ∧
      injCount .p1 out2 = ((splitLines (st.buffer ++ cs.flatten)).1).countP isMarker ∧
      injCount .p2 out2 = ((splitLines (st.buffer ++ cs.flatten)).1).countP isMarker := by
  intro cs
  induction cs with
  | nil =>
    intro st hp hnl _ _
    refine ⟨st.flags, [], ?_, hp, ?_, ?_⟩
    · rw [List.foldl_nil, List.flatten_nil, List.append_nil, splitLines_of_no_nl _ hnl,
        List.append_nil]
    · rw [List.flatten_nil, List.append_nil, splitLines_of_no_nl _ hnl]
      rfl
    · rw [List.flatten_nil, List.append_nil, splitLines_of_no_nl _ hnl]
      rfl
  | cons c cs' ih =>
    intro st hp hnl hcmds hsep
    have hdec := splitLines_append (st.buffer ++ c) cs'.flatten
    have hflow : st.buffer ++ (c :: cs').flatten = (st.buffer ++ c) ++ cs'.flatten := by
      rw [List.flatten_cons, List.append_assoc]
    have hfst : (splitLines (st.buffer ++ (c :: cs').flatten)).1 =
        (splitLines (st.buffer ++ c)).1 ++
          (splitLines ((splitLines (st.buffer ++ c)).2 ++ cs'.flatten)).1 := by
      rw [hflow]; exact congrArg Prod.fst hdec
    have hsnd : (splitLines (st.buffer ++ (c :: cs').flatten)).2 =
        (splitLines ((splitLines (st.buffer ++ c)).2 ++ cs'.flatten)).2 := by
      rw [hflow, hdec]
    have hgcmds : ∀ l ∈ (splitLines (st.buffer ++ c)).1, isP1Cmd l = false ∧ isP2Cmd l = false :=
      fun l hl => hcmds l (by rw [hfst]; exact List.mem_append_left _ hl)
    have hXcmds : ∀ l ∈ (splitLines ((splitLines (st.buffer ++ c)).2 ++ cs'.flatten)).1,
        isP1Cmd l = false ∧ isP2Cmd l = false :=
      fun l hl => hcmds l (by rw [hfst]; exact List.mem_append_right _ hl)
    -- at most one marker is completed in this chunk
    have hg1 : ((splitLines (st.buffer ++ c)).1).countP isMarker ≤ 1 := by
      have := hsep 0 (by simp)
      rw [List.take_zero, List.flatten_nil, List.append_nil, splitLines_of_no_nl _ hnl] at this
      simpa using this
    -- the per-chunk bound transfers to the residual stream
    have hsep' : ∀ k < cs'.length,
        ((splitLines ((splitLines (st.buffer ++ c)).2 ++ (cs'.take (k + 1)).flatten)).1).countP
          isMarker ≤
        ((splitLines ((splitLines (st.buffer ++ c)).2 ++ (cs'.take k).flatten)).1).countP
          isMarker + 1 := by
      intro k hk
      have hstep := hsep (k + 1) (by simpa using Nat.succ_lt_succ hk)
      have htk : ∀ j : ℕ, st.buffer ++ ((c :: cs').take (j + 1)).flatten =
          (st.buffer ++ c) ++ (cs'.take j).flatten := by
        intro j
        rw [List.take_succ_cons, List.flatten_cons, List.append_assoc]
      have hcount : ∀ j : ℕ,
          ((splitLines (st.buffer ++ ((c :: cs').take (j + 1)).flatten)).1).countP isMarker =
            ((splitLines (st.buffer ++ c)).1).countP isMarker +
            ((splitLines ((splitLines (st.buffer ++ c)).2 ++ (cs'.take j).flatten)).1).countP
              isMarker := by
        intro j
        rw [htk j, congrArg Prod.fst (splitLines_append (st.buffer ++ c) (cs'.take j).flatten),
          List.countP_append]
      rw [hcount (k + 1), hcount k] at hstep
      omega
    by_cases hany : (splitLines (st.buffer ++ c)).1.any isMarker
    · -- a marker chunk: exactly one injection round for both slots
      have hcnt1 : ((splitLines (st.buffer ++ c)).1).countP isMarker = 1 := by
        have hpos : 0 < ((splitLines (st.buffer ++ c)).1).countP isMarker := by
          obtain ⟨l, hl, hml⟩ := List.any_eq_true.1 hany
          exact List.countP_pos_iff.2 ⟨l, hl, hml⟩
        omega
      have hstep1 : feedChunk teams st c =
          ⟨⟨true, true, false⟩, (splitLines (st.buffer ++ c)).2,
            st.output ++ ((splitLines (st.buffer ++ c)).1).map (fun l => OutEvent.fwd l true) ++
              [OutEvent.inject .p1 (teams.p1.getD []),
                OutEvent.inject .p2 (teams.p2.getD [])]⟩ := by
        rw [feedChunk_eq, foldl_lineFlags_session teams h1 h2 _ _ hgcmds, hany]
        simp [injectTeams_both teams h1 h2, List.append_assoc]
      obtain ⟨f2, out2', heq, hp2, hc1, hc2⟩ := ih
        ⟨⟨true, true, false⟩, (splitLines (st.buffer ++ c)).2,
          st.output ++ ((splitLines (st.buffer ++ c)).1).map (fun l => OutEvent.fwd l true) ++
            [OutEvent.inject .p1 (teams.p1.getD []), OutEvent.inject .p2 (teams.p2.getD [])]⟩
        rfl (splitLines_snd_no_nl _) hXcmds hsep'
      refine ⟨f2, ((splitLines (st.buffer ++ c)).1).map (fun l => OutEvent.fwd l true) ++
        [OutEvent.inject .p1 (teams.p1.getD []), OutEvent.inject .p2 (teams.p2.getD [])] ++
        out2', ?_, hp2, ?_, ?_⟩
      · rw [List.foldl_cons, hstep1, heq, hsnd]
        dsimp only
        rw [List.append_assoc, List.append_assoc, List.append_assoc]
      · rw [hfst, List.countP_append, hcnt1, injCount_append, injCount_append, injCount_fwd_map,
          hc1]
        simp [injCount, List.countP_cons]
      · rw [hfst, List.countP_append, hcnt1, injCount_append, injCount_append, injCount_fwd_map,
          hc2]
        simp [injCount, List.countP_cons]
    · -- no marker completed in this chunk: no injection
      have hcnt0 : ((splitLines (st.buffer ++ c)).1).countP isMarker = 0 :=
        List.countP_eq_zero.2 fun l hl => by
          rw [Bool.not_eq_true] at hany
          have := List.any_eq_false.1 hany l hl
          simpa using this
      have hstep0 : feedChunk teams st c =
          ⟨st.flags, (splitLines (st.buffer ++ c)).2,
            st.output ++ ((splitLines (st.buffer ++ c)).1).map fun l => OutEvent.fwd l true⟩ := by
        rw [feedChunk_eq, foldl_lineFlags_session teams h1 h2 _ _ hgcmds]
        rw [Bool.not_eq_true] at hany
        rw [hany]
        simp [hp]
      obtain ⟨f2, out2', heq, hp2, hc1, hc2⟩ := ih
        ⟨st.flags, (splitLines (st.buffer ++ c)).2,
          st.output ++ ((splitLines (st.buffer ++ c)).1).map fun l => OutEvent.fwd l true⟩
        hp (splitLines_snd_no_nl _) hXcmds hsep'
      refine ⟨f2, ((splitLines (st.buffer ++ c)).1).map (fun l => OutEvent.fwd l true) ++ out2',
        ?_, hp2, ?_, ?_⟩
      · rw [List.foldl_cons, hstep0, heq, hsnd]
        dsimp only
        rw [List.append_assoc]
      · rw [hfst, List.countP_append, hcnt0, injCount_append, injCount_fwd_map, hc1]
      · rw [hfst, List.countP_append, hcnt0, injCount_append, injCount_fwd_map, hc2]

/-- C3 (amended): markers re-arm injection independently provided each
chunk completes at most one marker, so that an injection point falls
between any two markers.  For a stream with two or more `>start` markers,
no explicit `>player p1 ` / `>player p2 ` commands, at most one marker
completed per delivered chunk, and a non-marker unterminated tail, each
slot with a supplied team receives exactly one synthetic command per
marker (markers completed in the same chunk would instead share a single
injection round, see the counterexample). -/
theorem c3_multi_session_rearm (teams : TeamsCfg) (chunks : List Chars)
    (h1 : truthy teams.p1 = true) (h2 : truthy teams.p2 = true)
    (hcmds : ∀ l ∈ (splitLines chunks.flatten).1, isP1Cmd l = false ∧ isP2Cmd l = false)
    (hbuf : (splitLines chunks.flatten).2 = [] ∨
      isMarker (splitLines chunks.flatten).2 = false)
    (hsep : ∀ k < chunks.length,
      ((splitLines ((chunks.take (k + 1)).flatten)).1).countP isMarker ≤
        ((splitLines ((chunks.take k).flatten)).1).countP isMarker + 1)
    (_hge2 : 2 ≤ ((splitLines chunks.flatten).1).countP isMarker) :
    injCount .p1 (runPipe teams chunks) = ((splitLines chunks.flatten).1).countP isMarker ∧
    injCount .p2 (runPipe teams chunks) = ((splitLines chunks.flatten).1).countP isMarker := by
  obtain ⟨f2, out2, heq, hp2, hc1, hc2⟩ :=
    foldl_feedChunk_session_count teams h1 h2 chunks (initState teams) rfl (by simp [initState])
      (by simpa [initState] using hcmds) (by simpa [initState] using hsep)
  simp only [initState, List.nil_append] at heq hc1 hc2
  have hrun : runChunks teams chunks = ⟨f2, (splitLines chunks.flatten).2, out2⟩ := by
    rw [runChunks, initState, heq]
  rw [runPipe, hrun, flushPipe_eq]
  dsimp only
  by_cases hbe : (splitLines chunks.flatten).2.isEmpty
  · rw [if_pos hbe, if_neg (by simp [hp2])]
    exact ⟨hc1, hc2⟩
  · have hbm : isMarker (splitLines chunks.flatten).2 = false := by
      rcases hbuf with h | h
      · rw [h] at hbe; simp at hbe
      · exact h
    have hpend : (lineFlags teams f2 (splitLines chunks.flatten).2).pending = false := by
      rw [lineFlags_not_marker teams _ _ hbm]
      exact hp2
    rw [if_neg hbe, if_neg (by simp [hpend]), injCount_append, injCount_append]
    constructor
    · rw [hc1]; simp [injCount]
    · rw [hc2]; simp [injCount]

/-- Witness for the amended C3 at a concrete stream: two markers delivered
in two separate chunks give two synthetic commands per slot. -/
theorem c3_multi_session_rearm_witness :
    injCount .p1 (runPipe ⟨some (str "A"), some (str "B")⟩
      [str ">start a\n", str ">start b\n"]) =
      ((splitLines (([str ">start a\n", str ">start b\n"] : List Chars).flatten)).1).countP
        isMarker ∧
    injCount .p2 (runPipe ⟨some (str "A"), some (str "B")⟩
      [str ">start a\n", str ">start b\n"]) =
      ((splitLines (([str ">start a\n", str ">start b\n"] : List Chars).flatten)).1).countP
        isMarker :=
  c3_multi_session_rearm ⟨some (str "A"), some (str "B")⟩ [str ">start a\n", str ">start b\n"]
    (by decide) (by decide) (by decide) (by decide) (by decide) (by decide)

/-!
## C10: injection concatenated onto an unterminated trailing line
-/

theorem renderAll_append (a b : List OutEvent) :
    renderAll (a ++ b) = renderAll a ++ renderAll b := by
  simp [renderAll]

theorem renderAll_cons (e : OutEvent) (es : List OutEvent) :
    renderAll (e :: es) = renderEvent e ++ renderAll es := by
  simp [renderAll]

theorem injectTeams_snd_p1 (teams : TeamsCfg) (f : InjFlags)
    (h1 : truthy teams.p1 = true) (hh : f.handledP1 = false) :
    ∃ rest, (injectTeams teams f).2 = OutEvent.inject .p1 (teams.p1.getD []) :: rest := by
  by_cases h2 : truthy teams.p2 && !f.handledP2
  · exact ⟨[OutEvent.inject .p2 (teams.p2.getD [])], by simp [injectTeams, h1, hh, h2]⟩
  · exact ⟨[], by simp [injectTeams, h1, hh, h2]⟩

theorem marker_of_flush_pending (teams : TeamsCfg) (f : InjFlags) (b : Chars)
    (hp : f.pending = false) (hpend : (lineFlags teams f b).pending = true) :
    isMarker b = true := by
  by_contra hm
  rw [Bool.not_eq_true] at hm
  rw [lineFlags_not_marker teams f b hm] at hpend
  rw [hp] at hpend
  exact Bool.false_ne_true hpend

/-- C10: if the input ends in a non-empty unterminated line and that final
line leaves an injection pending at end of stream, `pipeInputWithTeams`
writes the trailing line without a newline and the synthetic `>player p1`
command directly after it, so the synthetic command's bytes are
concatenated onto the unterminated trailing line with no newline between
them. -/
theorem c10_trailing_injection (teams : TeamsCfg) (chunks : List Chars)
    (hbuf : (runChunks teams chunks).buffer ≠ [])
    (hpend : (lineFlags teams (runChunks teams chunks).flags
      (runChunks teams chunks).buffer).pending = true)
    (ht : truthy teams.p1 = true) :
    '\n' ∉ (runChunks teams chunks).buffer ∧
    ∃ tail, renderAll (runPipe teams chunks) =
      renderAll (runChunks teams chunks).output ++ (runChunks teams chunks).buffer ++
        str ">player p1 " ++ tail := by
  have hp0 : (runChunks teams chunks).flags.pending = false := runChunks_pending teams chunks
  have hm : isMarker (runChunks teams chunks).buffer = true :=
    marker_of_flush_pending teams _ _ hp0 hpend
  have hlf : lineFlags teams (runChunks teams chunks).flags (runChunks teams chunks).buffer =
      ⟨!truthy teams.p1, !truthy teams.p2, true⟩ :=
    lineFlags_marker teams _ _ hm
  have hh1 : (lineFlags teams (runChunks teams chunks).flags
      (runChunks teams chunks).buffer).handledP1 = false := by
    rw [hlf, ht]
    rfl
  obtain ⟨rest, hrest⟩ := injectTeams_snd_p1 teams _ ht hh1
  refine ⟨runChunks_buffer_no_nl teams chunks, jsonTeam (teams.p1.getD []) ++ ['\n'] ++
    renderAll rest, ?_⟩
  rw [runPipe, flushPipe_eq,
    if_neg (by simpa [List.isEmpty_iff] using hbuf), if_pos hpend, hrest]
  rw [renderAll_append, renderAll_append, renderAll_cons, renderAll_cons]
  have hfwd : renderEvent (OutEvent.fwd (runChunks teams chunks).buffer false) =
      (runChunks teams chunks).buffer := rfl
  have hinj : renderEvent (OutEvent.inject .p1 (teams.p1.getD [])) =
      str ">player p1 " ++ (jsonTeam (teams.p1.getD []) ++ ['\n']) := by
    show str ">player " ++ slotName .p1 ++ [' '] ++ jsonTeam (teams.p1.getD []) ++ ['\n'] = _
    rw [show str ">player " ++ slotName .p1 ++ [' '] = str ">player p1 " from rfl]
    rw [List.append_assoc]
  rw [hfwd, hinj]
  simp [renderAll, List.append_assoc]

/-- Witness for C10: the whole stream is the single unterminated line
`>start`. -/
theorem c10_trailing_injection_witness :
    '\n' ∉ (runChunks ⟨some (str "A"), some (str "B")⟩ [str ">start"]).buffer ∧
    ∃ tail, renderAll (runPipe ⟨some (str "A"), some (str "B")⟩ [str ">start"]) =
      renderAll (runChunks ⟨some (str "A"), some (str "B")⟩ [str ">start"]).output ++
        (runChunks ⟨some (str "A"), some (str "B")⟩ [str ">start"]).buffer ++
        str ">player p1 " ++ tail :=
  c10_trailing_injection ⟨some (str "A"), some (str "B")⟩ [str ">start"]
    (by decide) (by decide) (by decide)

/-!
## Annotator lemmas (C5, C6, C9)
-/

theorem format_none_iff (st : AnnState) (l : Chars) :
    (format st l).2 = none ↔ (trimChars l = [] ∨ trimChars l = ['|']) := by
  by_cases hg : trimChars l = [] ∨ trimChars l = ['|']
  · simp [format, hg]
  · cases hts : extractTimestamp (trimChars l) <;> cases htn : extractTurn (trimChars l) <;>
      simp [format, hg, hts, htn]

theorem format_some_fields (st : AnnState) (l : Chars) (r : AnnotatedEvent)
    (h : (format st l).2 = some r) :
    r.message = trimChars l ∧ r.player = extractPlayer (trimChars l) := by
  by_cases hg : trimChars l = [] ∨ trimChars l = ['|']
  · rw [(format_none_iff st l).2 hg] at h
    cases h
  · cases hts : extractTimestamp (trimChars l) <;> cases htn : extractTurn (trimChars l) <;>
      · simp only [format, hg, if_false, hts, htn] at h
        obtain rfl := Option.some.inj h
        exact ⟨rfl, rfl⟩

theorem format_state (st : AnnState) (msg : Chars) :
    (extractTimestamp (trimChars msg) = none →
      ((format st msg).1).battleTimestamp = st.battleTimestamp) ∧
    (extractTurn (trimChars msg) = none → ((format st msg).1).currentTurn = st.currentTurn) ∧
    (∀ v : ℤ, st.battleTimestamp = some v → ∃ w, ((format st msg).1).battleTimestamp = some w) ∧
    (∀ v : ℤ, st.currentTurn = some v → ∃ w, ((format st msg).1).currentTurn = some w) := by
  by_cases hg : trimChars msg = [] ∨ trimChars msg = ['|']
  · simp only [format, hg, if_true]
    exact ⟨fun _ => trivial, fun _ => trivial, fun v hv => ⟨v, hv⟩, fun v hv => ⟨v, hv⟩⟩
  · cases hts : extractTimestamp (trimChars msg) <;> cases htn : extractTurn (trimChars msg) <;>
      simp [format, hg, hts, htn] <;>
      first
        | exact fun v hv => ⟨v, hv⟩
        | exact ⟨fun v hv => ⟨v, hv⟩, fun v hv => ⟨v, hv⟩⟩

/-- C5: the three-line example on a fresh formatter yields exactly the
records the claim lists — record 1 has no turn and the timestamp of 1000
seconds after the epoch (`1970-01-01T00:16:40.000Z`), record 2 adds
turn 5, record 3 keeps both and reports player `p2` — and in general the
stored turn and timestamp persist until overwritten and are never reset
for the lifetime of a formatter instance. -/
theorem c5_annotator_carry_forward :
    formatAll [str "|t:|1000", str "|turn|5", str "hello p2 general"] =
      [⟨str "|t:|1000", some 1000000, none, none⟩,
        ⟨str "|turn|5", some 1000000, some 5, none⟩,
        ⟨str "hello p2 general", some 1000000, some 5, some (str "p2")⟩] ∧
    isoOfMillis 1000000 = str "1970-01-01T00:16:40.000Z" ∧
    (∀ (st : AnnState) (msg : Chars),
      (extractTimestamp (trimChars msg) = none →
        ((format st msg).1).battleTimestamp = st.battleTimestamp) ∧
      (extractTurn (trimChars msg) = none →
        ((format st msg).1).currentTurn = st.currentTurn) ∧
      (∀ v : ℤ, st.battleTimestamp = some v →
        ∃ w, ((format st msg).1).battleTimestamp = some w) ∧
      (∀ v : ℤ, st.currentTurn = some v → ∃ w, ((format st msg).1).currentTurn = some w)) :=
  ⟨by decide, by decide, format_state⟩

/-- Witness for C5's universally quantified persistence part at a concrete
state and line. -/
theorem c5_annotator_carry_forward_witness :
    ((format ⟨some 7, some 42⟩ (str "plain line")).1).battleTimestamp = some 42 ∧
    ((format ⟨some 7, some 42⟩ (str "plain line")).1).currentTurn = some 7 := by
  have h := (c5_annotator_carry_forward.2.2 ⟨some 7, some 42⟩ (str "plain line"))
  exact ⟨h.1 (by decide), h.2.1 (by decide)⟩

theorem splitOnChar_t_head (rest : Chars) :
    splitOnChar '|' ('|' :: 't' :: ':' :: '|' :: rest) =
      [] :: ['t', ':'] :: splitOnChar '|' rest := by
  simp [splitOnChar]

theorem splitOnChar_ne_nil (sep : Char) (l : Chars) : splitOnChar sep l ≠ [] := by
  induction l with
  | nil => simp [splitOnChar]
  | cons c rest ih =>
    rw [splitOnChar]
    by_cases hc : c = sep
    · simp [hc]
    · simp only [hc, if_false]
      match hps : splitOnChar sep rest with
      | [] => simp
      | p :: ps2 => simp

theorem extractTurn_of_t_head (m : Chars) (h : (str "|t:|").isPrefixOf m = true) :
    extractTurn m = none := by
  obtain ⟨rest, hrest⟩ : ∃ rest, m = '|' :: 't' :: ':' :: '|' :: rest := by
    obtain ⟨t, ht⟩ := List.isPrefixOf_iff_prefix.1 h
    exact ⟨t, ht.symm⟩
  subst hrest
  rw [extractTurn]
  rw [if_pos (by simp [str, List.isPrefixOf])]
  rw [splitOnChar_t_head]
  have hlen : ¬(([] :: ['t', ':'] :: splitOnChar '|' rest).length < 3) := by
    have := List.length_pos.2 (splitOnChar_ne_nil '|' rest)
    simp only [List.length_cons]
    omega
  rw [if_neg hlen]
  have hne : (([] :: ['t', ':'] :: splitOnChar '|' rest).get? 1 ≠ some (str "turn")) := by
    rw [List.get?_cons_succ, List.get?_cons_zero]
    decide
  rw [if_pos hne]

/-- C6: a timestamp-announcement line whose numeric part is not a finite
number (such as `|t:|notanumber`) leaves the stored battle timestamp (and
turn) unchanged, and still produces a record whose timestamp is derived
from the previously stored value — or marks the wall-clock fallback if
none was ever stored. -/
theorem c6_malformed_timestamp (st : AnnState) (msg : Chars)
    (hpre : (str "|t:|").isPrefixOf (trimChars msg) = true)
    (hnum : jsFiniteNumber ((trimChars msg).drop 4) = none) :
    ((format st msg).1).battleTimestamp = st.battleTimestamp ∧
    ((format st msg).1).currentTurn = st.currentTurn ∧
    (format st msg).2 = some ⟨trimChars msg, st.battleTimestamp.map (· * 1000),
      st.currentTurn, extractPlayer (trimChars msg)⟩ := by
  obtain ⟨rest, hrest⟩ : ∃ rest, trimChars msg = '|' :: 't' :: ':' :: '|' :: rest := by
    obtain ⟨t, ht⟩ := List.isPrefixOf_iff_prefix.1 hpre
    exact ⟨t, ht.symm⟩
  have hg : ¬(trimChars msg = [] ∨ trimChars msg = ['|']) := by
    rw [hrest]
    simp
  have hts : extractTimestamp (trimChars msg) = none := by
    rw [extractTimestamp, if_pos hpre]
    exact hnum
  have htn : extractTurn (trimChars msg) = none := extractTurn_of_t_head _ hpre
  simp [format, hg, hts, htn]

/-- Witness for C6 at the claim's own input, from a state that already
holds a timestamp and a turn. -/
theorem c6_malformed_timestamp_witness :
    ((format ⟨some 7, some 42⟩ (str "|t:|notanumber")).1).battleTimestamp = some 42 ∧
    ((format ⟨some 7, some 42⟩ (str "|t:|notanumber")).1).currentTurn = some 7 ∧
    (format ⟨some 7, some 42⟩ (str "|t:|notanumber")).2 =
      some ⟨trimChars (str "|t:|notanumber"), (some (42 : ℤ)).map (· * 1000), some 7,
        extractPlayer (trimChars (str "|t:|notanumber"))⟩ :=
  c6_malformed_timestamp ⟨some 7, some 42⟩ (str "|t:|notanumber") (by decide) (by decide)

theorem playerMatchAt_nil (i : Nat) : playerMatchAt [] i = false := by
  cases i <;> simp [playerMatchAt]

theorem playerMatchAt_single (c : Char) (i : Nat) : playerMatchAt [c] i = false := by
  cases i with
  | zero => rfl
  | succ n => simp [playerMatchAt]

theorem playerMatchAt_succ (c : Char) (rest : Chars) (i : Nat) :
    playerMatchAt (c :: rest) (i + 1) = playerMatchAt rest i := rfl

theorem playerMatchAt_zero_cons2 (c d : Char) (rest : Chars) :
    playerMatchAt (c :: d :: rest) 0 = (decide (c = 'p') && isSlotDigit d) := rfl

theorem extractPlayer_none_iff (l : Chars) :
    extractPlayer l = none ↔ ∀ i, playerMatchAt l i = false := by
  induction l with
  | nil => simp [extractPlayer, playerMatchAt_nil]
  | cons c rest ih =>
    cases rest with
    | nil => simp [extractPlayer, playerMatchAt_single]
    | cons d r2 =>
      by_cases hm : (decide (c = 'p') && isSlotDigit d) = true
      · constructor
        · intro h
          rw [extractPlayer, if_pos hm] at h
          cases h
        · intro h
          have h0 := h 0
          rw [playerMatchAt_zero_cons2, hm] at h0
          cases h0
      · rw [Bool.not_eq_true] at hm
        rw [extractPlayer, hm]
        simp only [Bool.false_eq_true, if_false]
        rw [ih]
        constructor
        · intro h i
          cases i with
          | zero => rw [playerMatchAt_zero_cons2]; exact hm
          | succ n => rw [playerMatchAt_succ]; exact h n
        · intro h i
          have := h (i + 1)
          rwa [playerMatchAt_succ] at this

theorem extractPlayer_some_first (l : Chars) :
    ∀ s, extractPlayer l = some s →
      ∃ i d r2, l.drop i = 'p' :: d :: r2 ∧ isSlotDigit d = true ∧ s = ['p', d] ∧
        ∀ j, j < i → playerMatchAt l j = false := by
  induction l with
  | nil => intro s h; cases h
  | cons c rest ih =>
    cases rest with
    | nil => intro s h; cases h
    | cons d r2 =>
      intro s h
      by_cases hm : (decide (c = 'p') && isSlotDigit d) = true
      · rw [extractPlayer, if_pos hm] at h
        obtain ⟨hc, hd⟩ : decide (c = 'p') = true ∧ isSlotDigit d = true := by
          rw [Bool.and_eq_true] at hm
          exact hm
        have hc' : c = 'p' := of_decide_eq_true hc
        refine ⟨0, d, r2, ?_, hd, ?_, fun j hj => absurd hj (Nat.not_lt_zero j)⟩
        · rw [List.drop_zero, hc']
        · rw [← Option.some.inj h, hc']
      · rw [Bool.not_eq_true] at hm
        rw [extractPlayer, hm] at h
        simp only [Bool.false_eq_true, if_false] at h
        obtain ⟨i, d', r', hdrop, hdig, hs, hfirst⟩ := ih s h
        refine ⟨i + 1, d', r', hdrop, hdig, hs, ?_⟩
        intro j hj
        cases j with
        | zero => rw [playerMatchAt_zero_cons2]; exact hm
        | succ n => rw [playerMatchAt_succ]; exact hfirst n (by omega)

/-- C9: for any line, the record's player field is the first substring
matching `p` followed by a digit 1–4 (embedded occurrences included, e.g.
`mp3` yields `p3`) and `none` when no such substring exists, and the field
is computed from the current (trimmed) line only, independent of the
formatter state. -/
theorem c9_player_first_match (l : Chars) :
    (extractPlayer l = none ↔ ∀ i, playerMatchAt l i = false) ∧
    (∀ s, extractPlayer l = some s →
      ∃ i d r2, l.drop i = 'p' :: d :: r2 ∧ isSlotDigit d = true ∧ s = ['p', d] ∧
        ∀ j, j < i → playerMatchAt l j = false) ∧
    (∀ (st : AnnState) (r : AnnotatedEvent), (format st l).2 = some r →
      r.player = extractPlayer (trimChars l)) ∧
    extractPlayer (str "a mp3 x") = some (str "p3") :=
  ⟨extractPlayer_none_iff l, extractPlayer_some_first l,
    fun st r h => (format_some_fields st l r h).2, by decide⟩

/-- Witness for C9's conditional parts at a concrete line containing an
embedded `p3`. -/
theorem c9_player_first_match_witness :
    ∃ i d r2, (str "a mp3 x").drop i = 'p' :: d :: r2 ∧ isSlotDigit d = true ∧
      (str "p3") = ['p', d] ∧ ∀ j, j < i → playerMatchAt (str "a mp3 x") j = false :=
  (c9_player_first_match (str "a mp3 x")).2.1 (str "p3") (by decide)

/-!
## C7: the read side splits each chunk independently
-/

theorem splitOnChar_no_sep (sep : Char) (l : Chars) (h : sep ∉ l) :
    splitOnChar sep l = [l] := by
  induction l with
  | nil => rfl
  | cons c rest ih =>
    have hc : ¬(c = sep) := fun e => h (by rw [← e]; exact List.mem_cons_self _ _)
    rw [splitOnChar, ih fun hm => h (List.mem_cons_of_mem _ hm)]
    simp [hc]

theorem splitOnChar_append_sep (sep : Char) (l : Chars) (h : sep ∉ l) :
    splitOnChar sep (l ++ [sep]) = [l, []] := by
  induction l with
  | nil => simp [splitOnChar]
  | cons c rest ih =>
    have hc : ¬(c = sep) := fun e => h (by rw [← e]; exact List.mem_cons_self _ _)
    rw [List.cons_append, splitOnChar, ih fun hm => h (List.mem_cons_of_mem _ hm)]
    simp [hc]

theorem format_produces (st : AnnState) (l : Chars) (h1 : trimChars l ≠ [])
    (h2 : trimChars l ≠ ['|']) :
    ∃ r, (format st l).2 = some r ∧ r.message = trimChars l := by
  cases hx : (format st l).2 with
  | none => exact absurd ((format_none_iff st l).1 hx) (by simp [h1, h2])
  | some r => exact ⟨r, rfl, (format_some_fields st l r hx).1⟩

theorem processChunkJson_single (st : AnnState) (l : Chars) (hnl : '\n' ∉ l) (hne : l ≠ [])
    (r : AnnotatedEvent) (hr : (format st l).2 = some r) :
    processChunkJson st l = ((format st l).1, [r]) := by
  rw [processChunkJson, splitOnChar_no_sep '\n' l hnl]
  rcases hfp : format st l with ⟨st1, o1⟩
  rw [hfp] at hr
  dsimp only at hr
  subst hr
  simp [hne]
  rw [hfp]

theorem processChunkJson_term (st : AnnState) (l : Chars) (hnl : '\n' ∉ l) (hne : l ≠ [])
    (r : AnnotatedEvent) (hr : (format st l).2 = some r) :
    processChunkJson st (l ++ ['\n']) = ((format st l).1, [r]) := by
  rw [processChunkJson, splitOnChar_append_sep '\n' l hnl]
  rcases hfp : format st l with ⟨st1, o1⟩
  rw [hfp] at hr
  dsimp only at hr
  subst hr
  simp [hne]
  rw [hfp]

/-- C7 counterexample: the logical line `|turn|5` delivered split across
two engine chunks (`|turn` then `|5\n`) yields two records, one per
non-empty fragment — the read side of `pipeJsonOutput` keeps no
unterminated tail across chunk boundaries. -/
theorem c7_read_side_counterexample :
    pipeJsonOutput [str "|turn", str "|5\n"] =
      [⟨str "|turn", none, none, none⟩, ⟨str "|5", none, none, none⟩] ∧
    (pipeJsonOutput [str "|turn", str "|5\n"]).length ≠ 1 := by
  decide

/-- C7 (amended): the read side splits each chunk on `'\n'` independently,
with no tail retained across chunk boundaries: a protocol line whose bytes
arrive split across two successive chunks yields one record per non-empty
fragment — two records whose messages are the trimmed fragments — rather
than a single record for the reassembled line. -/
theorem c7_amended_per_chunk_split (pre suf : Chars)
    (hpn : '\n' ∉ pre) (hsn : '\n' ∉ suf)
    (hpre1 : trimChars pre ≠ []) (hpre2 : trimChars pre ≠ ['|'])
    (hsuf1 : trimChars suf ≠ []) (hsuf2 : trimChars suf ≠ ['|']) :
    ∃ r1 r2, pipeJsonOutput [pre, suf ++ ['\n']] = [r1, r2] ∧
      r1.message = trimChars pre ∧ r2.message = trimChars suf := by
  have hpne : pre ≠ [] := by
    intro e
    rw [e] at hpre1
    exact hpre1 rfl
  have hsne : suf ≠ [] := by
    intro e
    rw [e] at hsuf1
    exact hsuf1 rfl
  obtain ⟨r1, hr1, hm1⟩ := format_produces initAnn pre hpre1 hpre2
  obtain ⟨r2, hr2, hm2⟩ := format_produces (format initAnn pre).1 suf hsuf1 hsuf2
  refine ⟨r1, r2, ?_, hm1, hm2⟩
  have h1 := processChunkJson_single initAnn pre hpn hpne r1 hr1
  have h2 := processChunkJson_term (format initAnn pre).1 suf hsn hsne r2 hr2
  rw [pipeJsonOutput, List.foldl_cons, List.foldl_cons, List.foldl_nil]
  dsimp only
  rw [h1]
  dsimp only
  rw [h2]
  simp

/-- Witness for the amended C7 at the counterexample's own fragments. -/
theorem c7_amended_per_chunk_split_witness :
    ∃ r1 r2, pipeJsonOutput [str "|turn", str "|5" ++ ['\n']] = [r1, r2] ∧
      r1.message = trimChars (str "|turn") ∧ r2.message = trimChars (str "|5") :=
  c7_amended_per_chunk_split (str "|turn") (str "|5") (by decide) (by decide) (by decide)
    (by decide) (by decide) (by decide)

/-!
## C8: configuration errors are fatal before any engine work
-/

theorem loadTeamE_ok_ne (env : MainEnv) (path : Chars) (slot : PlayerSlot) (packed : Chars)
    (h : loadTeamE env path slot = .ok packed) : packed ≠ [] := by
  rw [loadTeamE] at h
  by_cases h0 : trimChars path = []
  · rw [if_pos h0] at h
    cases h
  · rw [if_neg h0] at h
    cases hl : env.loadTeam (trimChars path) slot with
    | none => rw [hl] at h; cases h
    | some pk =>
      rw [hl] at h
      by_cases hpk : pk = []
      · simp [hpk] at h
      · simp [hpk] at h
        rw [← h]
        exact hpk

theorem loadSlot_truthy (env : MainEnv) (p : Option Chars) (slot : PlayerSlot)
    (t : Option Chars) (hp : truthy p = true) (h : loadSlot env p slot = .ok t) :
    truthy t = true := by
  cases p with
  | none => simp [truthy] at hp
  | some s =>
    have hs : ¬(s = []) := by
      intro e
      rw [e] at hp
      simp [truthy] at hp
    rw [loadSlot, if_neg hs] at h
    cases hl : loadTeamE env s slot with
    | error e => rw [hl] at h; cases h
    | ok packed =>
      rw [hl] at h
      injection h with h'
      rw [← h']
      have hpk : packed ≠ [] := loadTeamE_ok_ne env s slot packed hl
      simp [truthy, hpk]

/-- C8: combining team-file options with verbatim-forwarding
(`--interactive-stdin`) is detected before the `BattleStream` is
constructed: the run ends in a fatal diagnostic (`Except.error` models
`console.error` + `process.exit(1)`), and when the earlier validation
stages pass it is precisely the conflict diagnostic; an unknown log format
and an empty (all-whitespace) seed receive the same pre-session fatal
treatment. -/
theorem c8_config_errors_fatal (env : MainEnv) (v : CLIValues) :
    (v.interactiveStdin = true → (truthy v.p1TeamFile || truthy v.p2TeamFile) = true →
      ∃ e, runMain env v = .error e) ∧
    (∀ s, v.logFormat = some s → toLowerChars s ≠ str "text" → toLowerChars s ≠ str "json" →
      runMain env v = .error .unknownLogFormat) ∧
    (∀ s fmt, v.seed = some s → trimChars s = [] → parseLogFormatE v.logFormat = .ok fmt →
      runMain env v = .error .emptySeed) ∧
    (∀ fmt sd t1 t2, v.interactiveStdin = true →
      parseLogFormatE v.logFormat = .ok fmt →
      parseSeedE env v.seed = .ok sd →
      loadSlot env v.p1TeamFile .p1 = .ok t1 →
      loadSlot env v.p2TeamFile .p2 = .ok t2 →
      (truthy t1 || truthy t2) = true →
      runMain env v = .error .teamConflict) := by
  refine ⟨?_, ?_, ?_, ?_⟩
  · intro hint htf
    cases hf : parseLogFormatE v.logFormat with
    | error e => exact ⟨e, by simp [runMain, hf]⟩
    | ok fmt =>
      cases hs : parseSeedE env v.seed with
      | error e => exact ⟨e, by simp [runMain, hf, hs]⟩
      | ok sd =>
        cases hl1 : loadSlot env v.p1TeamFile .p1 with
        | error e => exact ⟨e, by simp [runMain, hf, hs, hl1]⟩
        | ok t1 =>
          cases hl2 : loadSlot env v.p2TeamFile .p2 with
          | error e => exact ⟨e, by simp [runMain, hf, hs, hl1, hl2]⟩
          | ok t2 =>
            have hcond : (truthy t1 || truthy t2) = true := by
              rw [Bool.or_eq_true] at htf ⊢
              rcases htf with h | h
              · exact Or.inl (loadSlot_truthy env _ _ _ h hl1)
              · exact Or.inr (loadSlot_truthy env _ _ _ h hl2)
            exact ⟨.teamConflict, by simp [runMain, hf, hs, hl1, hl2, hint, hcond]⟩
  · intro s hlf h1 h2
    have hf : parseLogFormatE v.logFormat = .error .unknownLogFormat := by
      rw [hlf, parseLogFormatE]
      simp [h1, h2]
    simp [runMain, hf]
  · intro s fmt hseed htrim hfmt
    have hs : parseSeedE env v.seed = .error .emptySeed := by
      rw [hseed, parseSeedE]
      simp [htrim]
    simp [runMain, hfmt, hs]
  · intro fmt sd t1 t2 hint hfmt hsd hl1 hl2 hcond
    simp [runMain, hfmt, hsd, hl1, hl2, hint, hcond]

/-- Witness for C8: a team file for `p1` combined with
`--interactive-stdin` (and otherwise valid options) yields exactly the
conflict diagnostic. -/
theorem c8_config_errors_fatal_witness :
    runMain ⟨fun _ _ => some (str "T"), fun _ => true⟩
      ⟨some (str "json"), some (str "s1"), some (str "f1"), none, true⟩ =
      .error .teamConflict :=
  (c8_config_errors_fatal ⟨fun _ _ => some (str "T"), fun _ => true⟩
      ⟨some (str "json"), some (str "s1"), some (str "f1"), none, true⟩).2.2.2
    .json (some (.explicit (str "s1"))) (some (str "T")) none
    rfl rfl rfl rfl rfl (by decide)

end HeadlessRunner
